import Mathlib

/-!
Verification of the cardvault storage layer (`src/rust/src/store.rs`) and the
photo handlers (`src/rust/src/handlers.rs`).

The SQLite database is shallowly embedded as a `Store` structure: one list of
rows per table together with the AUTOINCREMENT counters.  Each store function
is translated statement by statement; SQL `ORDER BY` is modelled by a stable
insertion sort, SQL `LIKE` by an executable pattern matcher with SQLite's
ASCII case folding, and `CURRENT_TIMESTAMP` by an explicit `now : Nat`
argument supplied by the caller.
-/

namespace CardVault

/-- ASCII lower-casing of one character, as SQLite's `LIKE` folds case and as
Rust's `to_lowercase` behaves on the ASCII extensions involved here. -/
def asciiLowerChar (c : Char) : Char :=
  if 65 ≤ c.toNat ∧ c.toNat ≤ 90 then Char.ofNat (c.toNat + 32) else c

/-- ASCII lower-casing of a character list. -/
def lowerList (cs : List Char) : List Char := cs.map asciiLowerChar

/-- ASCII lower-casing of a string (models `str::to_lowercase` on the
extension strings compared against the all-ASCII allow-list). -/
def asciiLower (s : String) : String := String.mk (lowerList s.data)

/-- Unicode `White_Space` predicate, as used by Rust's `str::trim` /
`char::is_whitespace`. -/
def isRustWhitespace (c : Char) : Bool :=
  let n := c.toNat
  (9 ≤ n && n ≤ 13) || n == 32 || n == 133 || n == 160 || n == 5760 ||
  (8192 ≤ n && n ≤ 8202) || n == 8232 || n == 8233 || n == 8239 ||
  n == 8287 || n == 12288

/-- Models Rust's `s.trim().is_empty()`: the string consists only of
whitespace characters. -/
def trimIsEmpty (s : String) : Bool := s.data.all isRustWhitespace

/-- SQLite `LIKE` pattern matching over characters: `%` matches any sequence
(some suffix of the remaining text continues the match), `_` matches one
character, and ordinary characters compare with ASCII case folding (SQLite's
default `case_sensitive_like = OFF`). -/
def likeMatch : List Char → List Char → Bool
  | [], s => s.isEmpty
  | p :: ps, s =>
    if p == '%' then
      s.tails.any (fun t => likeMatch ps t)
    else
      match s with
      | [] => false
      | c :: cs =>
        (if p == '_' then true else asciiLowerChar p == asciiLowerChar c) &&
          likeMatch ps cs

/-- The test `hay LIKE '%' || q || '%'`, as built by `format!("%{search}%")` in
`list_cards`. -/
def likeContains (q hay : String) : Bool :=
  likeMatch ('%' :: (q.data ++ ['%'])) hay.data

/-- Boolean test that `pat` occurs at the start of `hay` (exact characters). -/
def headMatches : List Char → List Char → Bool
  | [], _ => true
  | _ :: _, [] => false
  | p :: ps, c :: cs => p == c && headMatches ps cs

/-- Boolean test that `pat` occurs contiguously inside `hay`; models Rust's
`str::contains` for a literal pattern. -/
def occursIn (pat : List Char) : List Char → Bool
  | [] => pat.isEmpty
  | c :: cs => headMatches pat (c :: cs) || occursIn pat cs

/-- Stable ordered insertion for the insertion sort modelling `ORDER BY`. -/
def insertOrdered (le : α → α → Bool) (x : α) : List α → List α
  | [] => [x]
  | y :: ys => if le x y then x :: y :: ys else y :: insertOrdered le x ys

/-- Stable insertion sort; models a SQL `ORDER BY` clause with comparison
`le`. -/
def sortByRel (le : α → α → Bool) : List α → List α
  | [] => []
  | x :: xs => insertOrdered le x (sortByRel le xs)

/-! ## Data model (`models.rs` and the schema in `store.rs`) -/

/-- Output phone entry (`models.rs`, `Phone`). -/
structure Phone where
  id : Nat
  label : String
  number : String
deriving DecidableEq

/-- Output email entry (`models.rs`, `Email`). -/
structure Email where
  id : Nat
  label : String
  address : String
deriving DecidableEq

/-- Output address entry (`models.rs`, `Address`). -/
structure Address where
  id : Nat
  label : String
  street : String
  city : String
  country : String
  postal : String
deriving DecidableEq

/-- Fully hydrated card aggregate (`models.rs`, `Card`); timestamps are
modelled as abstract clock values. -/
structure Card where
  id : Nat
  name : String
  title : String
  company : String
  website : String
  notes : String
  photo_url : String
  phones : List Phone
  emails : List Email
  addresses : List Address
  tags : List String
  created_at : Nat
  updated_at : Nat
deriving DecidableEq

/-- Tag usage entry (`models.rs`, `TagCount`). -/
structure TagCount where
  name : String
  count : Nat
deriving DecidableEq

/-- Phone input (`models.rs`, `CardFormPhoneInput`). -/
structure CardFormPhoneInput where
  label : String
  number : String
deriving DecidableEq

/-- Email input (`models.rs`, `CardFormEmailInput`). -/
structure CardFormEmailInput where
  label : String
  address : String
deriving DecidableEq

/-- Address input (`models.rs`, `CardFormAddressInput`). -/
structure CardFormAddressInput where
  label : String
  street : String
  city : String
  country : String
  postal : String
deriving DecidableEq

/-- Aggregate input (`models.rs`, `CardInput`). -/
structure CardInput where
  name : String
  title : String
  company : String
  website : String
  notes : String
  phones : List CardFormPhoneInput
  emails : List CardFormEmailInput
  addresses : List CardFormAddressInput
  tags : List String
deriving DecidableEq

/-! ## Table rows and the store state (schema of `init_db`) -/

/-- Row of table `cards`. -/
structure CardRow where
  id : Nat
  name : String
  title : String
  company : String
  website : String
  notes : String
  photo_path : String
  created_at : Nat
  updated_at : Nat
deriving DecidableEq

/-- Row of table `card_phones`. -/
structure PhoneRow where
  id : Nat
  card_id : Nat
  label : String
  number : String
deriving DecidableEq

/-- Row of table `card_emails`. -/
structure EmailRow where
  id : Nat
  card_id : Nat
  label : String
  address : String
deriving DecidableEq

/-- Row of table `card_addresses`. -/
structure AddressRow where
  id : Nat
  card_id : Nat
  label : String
  street : String
  city : String
  country : String
  postal : String
deriving DecidableEq

/-- Row of table `tags` (`name` is UNIQUE in the schema). -/
structure TagRow where
  id : Nat
  name : String
deriving DecidableEq

/-- The whole SQLite database: one list per table plus the AUTOINCREMENT
counters (`next_*` is the id the next insert receives; AUTOINCREMENT never
reuses ids). `card_tags` rows are `(card_id, tag_id)` pairs with the primary
key on the pair. -/
structure Store where
  cards : List CardRow
  card_phones : List PhoneRow
  card_emails : List EmailRow
  card_addresses : List AddressRow
  tags : List TagRow
  card_tags : List (Nat × Nat)
  next_card_id : Nat
  next_phone_id : Nat
  next_email_id : Nat
  next_address_id : Nat
  next_tag_id : Nat
deriving DecidableEq

/-- The freshly initialised database: empty tables, ids starting at 1. -/
def initStore : Store :=
  { cards := [], card_phones := [], card_emails := [], card_addresses := []
    tags := [], card_tags := []
    next_card_id := 1, next_phone_id := 1, next_email_id := 1
    next_address_id := 1, next_tag_id := 1 }

/-- Structural invariants guaranteed by the SQLite schema: primary keys are
unique and below the AUTOINCREMENT counter, `name` is unique in `tags`,
`card_tags` has its primary key on the pair, and every foreign key references
an existing row. -/
def Store.WF (s : Store) : Prop :=
  (s.cards.map (fun c => c.id)).Nodup ∧
  (∀ c ∈ s.cards, c.id < s.next_card_id) ∧
  (s.card_phones.map (fun p => p.id)).Nodup ∧
  (∀ p ∈ s.card_phones, p.id < s.next_phone_id ∧
    p.card_id ∈ s.cards.map (fun c => c.id)) ∧
  (s.card_emails.map (fun e => e.id)).Nodup ∧
  (∀ e ∈ s.card_emails, e.id < s.next_email_id ∧
    e.card_id ∈ s.cards.map (fun c => c.id)) ∧
  (s.card_addresses.map (fun a => a.id)).Nodup ∧
  (∀ a ∈ s.card_addresses, a.id < s.next_address_id ∧
    a.card_id ∈ s.cards.map (fun c => c.id)) ∧
  (s.tags.map (fun t => t.id)).Nodup ∧
  (s.tags.map (fun t => t.name)).Nodup ∧
  (∀ t ∈ s.tags, t.id < s.next_tag_id) ∧
  s.card_tags.Nodup ∧
  (∀ l ∈ s.card_tags, l.1 ∈ s.cards.map (fun c => c.id) ∧
    l.2 ∈ s.tags.map (fun t => t.id))

instance (s : Store) : Decidable s.WF := by unfold Store.WF; infer_instance

/-! ## Reading one aggregate (`fetch_card_by_id`) -/

/-- Tag ids currently linked to card `cid` (the `card_tags` rows for it). -/
def linksFor (s : Store) (cid : Nat) : List Nat :=
  (s.card_tags.filter (fun l => l.1 == cid)).map (fun l => l.2)

/-- Name lookup of one tag id (`SELECT name FROM tags WHERE id = ?`). -/
def tagNameOf (s : Store) (tid : Nat) : Option String :=
  (s.tags.find? (fun t => t.id == tid)).map (fun t => t.name)

/-- The tag names produced by joining `card_tags` with `tags` for card
`cid`, one per link row (before the `ORDER BY t.name`). -/
def linkedTagNames (s : Store) (cid : Nat) : List String :=
  (linksFor s cid).filterMap (tagNameOf s)

/-- Hydration of one card row: child collections filtered by `card_id` and
ordered by child id, tags ordered by name, `photo_url` derived from
`photo_path` as in `fetch_card_by_id`. -/
def hydrate (s : Store) (id : Nat) (r : CardRow) : Card :=
  { id := r.id, name := r.name, title := r.title, company := r.company
    website := r.website, notes := r.notes
    photo_url := if r.photo_path = "" then "" else "/" ++ r.photo_path
    phones :=
      (sortByRel (fun a b => decide (a.id ≤ b.id))
        (s.card_phones.filter (fun p => p.card_id == id))).map
        (fun p => { id := p.id, label := p.label, number := p.number })
    emails :=
      (sortByRel (fun a b => decide (a.id ≤ b.id))
        (s.card_emails.filter (fun e => e.card_id == id))).map
        (fun e => { id := e.id, label := e.label, address := e.address })
    addresses :=
      (sortByRel (fun a b => decide (a.id ≤ b.id))
        (s.card_addresses.filter (fun a => a.card_id == id))).map
        (fun a => { id := a.id, label := a.label, street := a.street,
                    city := a.city, country := a.country, postal := a.postal })
    tags := sortByRel (fun a b => decide (a ≤ b)) (linkedTagNames s id)
    created_at := r.created_at, updated_at := r.updated_at }

/-- Models `fetch_card_by_id`: load the scalar row (`None` when absent) and hydrate
children and tags. -/
def fetch_card_by_id (s : Store) (id : Nat) : Option Card :=
  (s.cards.find? (fun r => r.id == id)).map (hydrate s id)

/-- Models `get_card`: `fetch_card_by_id` under the connection lock. -/
def get_card (s : Store) (id : Nat) : Option Card :=
  fetch_card_by_id s id

/-! ## Search (`list_cards`) -/

/-- One card row satisfies the free-text condition of `list_cards`:
`c.name LIKE ?2 OR c.company LIKE ?2 OR ce.address LIKE ?2` after the
LEFT JOIN with `card_emails` (a card with no emails can still match on
name/company; `DISTINCT` collapses the email multiplicity). -/
def rowMatchesQ (s : Store) (q : String) (c : CardRow) : Bool :=
  likeContains q c.name || likeContains q c.company ||
    s.card_emails.any (fun e => e.card_id == c.id && likeContains q e.address)

/-- One card row is linked to a tag with exactly name `tf`
(`JOIN card_tags ... JOIN tags ... WHERE t.name = ?1`). -/
def rowHasTag (s : Store) (tf : String) (c : CardRow) : Bool :=
  s.card_tags.any (fun l =>
    l.1 == c.id && s.tags.any (fun t => t.id == l.2 && t.name == tf))

/-- The id-resolution phase of `list_cards`: the four query shapes, each
`SELECT DISTINCT c.id ... ORDER BY c.updated_at DESC`. -/
def list_ids (s : Store) (q tag : Option String) : List Nat :=
  let base : List CardRow :=
    match q, tag with
    | some search, some tf =>
        s.cards.filter (fun c => rowHasTag s tf c && rowMatchesQ s search c)
    | some search, none => s.cards.filter (fun c => rowMatchesQ s search c)
    | none, some tf => s.cards.filter (fun c => rowHasTag s tf c)
    | none, none => s.cards
  (sortByRel (fun a b => decide (b.updated_at ≤ a.updated_at)) base).map
    (fun c => c.id)

/-- Models `list_cards`: resolve ids, then hydrate each id through
`fetch_card_by_id`, skipping ids that are gone. -/
def list_cards (s : Store) (q tag : Option String) : List Card :=
  (list_ids s q tag).filterMap (fetch_card_by_id s)

/-! ## Tag vocabulary (`upsert_tags_and_link`) and writes -/

/-- One iteration of the loop in `upsert_tags_and_link`: skip blank names,
`INSERT OR IGNORE` the tag row, look its id up, and `INSERT OR IGNORE` the
link pair. -/
def upsertTagStep (card_id : Nat) (s : Store) (tag : String) : Store :=
  if trimIsEmpty tag then s
  else
    let s1 :=
      if s.tags.any (fun t => t.name == tag) then s
      else { s with tags := s.tags ++ [{ id := s.next_tag_id, name := tag }]
                    next_tag_id := s.next_tag_id + 1 }
    match s1.tags.find? (fun t => t.name == tag) with
    | some t =>
        if s1.card_tags.contains (card_id, t.id) then s1
        else { s1 with card_tags := s1.card_tags ++ [(card_id, t.id)] }
    | none => s1

/-- Models `upsert_tags_and_link`: delete all links of the card, then process each
name with `upsertTagStep`. -/
def upsert_tags_and_link (s : Store) (card_id : Nat) (tags : List String) :
    Store :=
  (tags.foldl (upsertTagStep card_id)
    { s with card_tags := s.card_tags.filter (fun l => !(l.1 == card_id)) })

/-- Insert one `card_phones` row for `card_id` (AUTOINCREMENT id). -/
def insertPhoneRow (card_id : Nat) (s : Store) (p : CardFormPhoneInput) :
    Store :=
  { s with
    card_phones := s.card_phones ++
      [{ id := s.next_phone_id, card_id := card_id,
         label := p.label, number := p.number }]
    next_phone_id := s.next_phone_id + 1 }

/-- Insert one `card_emails` row for `card_id` (AUTOINCREMENT id). -/
def insertEmailRow (card_id : Nat) (s : Store) (e : CardFormEmailInput) :
    Store :=
  { s with
    card_emails := s.card_emails ++
      [{ id := s.next_email_id, card_id := card_id,
         label := e.label, address := e.address }]
    next_email_id := s.next_email_id + 1 }

/-- Insert one `card_addresses` row for `card_id` (AUTOINCREMENT id). -/
def insertAddressRow (card_id : Nat) (s : Store) (a : CardFormAddressInput) :
    Store :=
  { s with
    card_addresses := s.card_addresses ++
      [{ id := s.next_address_id, card_id := card_id, label := a.label,
         street := a.street, city := a.city, country := a.country,
         postal := a.postal }]
    next_address_id := s.next_address_id + 1 }

/-- The scalar row inserted by `create_card` (photo empty, both timestamps
`CURRENT_TIMESTAMP`). -/
def newCardRow (s : Store) (input : CardInput) (now : Nat) : CardRow :=
  { id := s.next_card_id, name := input.name, title := input.title,
    company := input.company, website := input.website, notes := input.notes,
    photo_path := "", created_at := now, updated_at := now }

/-- Models `create_card`: insert the scalar row, take `last_insert_rowid`, insert
each child row, link the tags; returns the new state and the new id. -/
def create_card (s : Store) (input : CardInput) (now : Nat) : Store × Nat :=
  let id := s.next_card_id
  let s1 := { s with cards := s.cards ++ [newCardRow s input now]
                     next_card_id := id + 1 }
  let s2 := input.phones.foldl (insertPhoneRow id) s1
  let s3 := input.emails.foldl (insertEmailRow id) s2
  let s4 := input.addresses.foldl (insertAddressRow id) s3
  (upsert_tags_and_link s4 id input.tags, id)

/-- The per-row effect of the scalar `UPDATE` statement of `update_card`:
the row with the matching id gets the new scalar fields and a bumped
`updated_at`; every other row is unchanged. -/
def scalarUpdate (input : CardInput) (now id : Nat) (r : CardRow) : CardRow :=
  if r.id = id then
    { r with name := input.name, title := input.title,
             company := input.company, website := input.website,
             notes := input.notes, updated_at := now }
  else r

/-- Models `update_card`: run the scalar `UPDATE` (bump `updated_at`); if it matched
no row, bail with the store as the statement left it; otherwise delete-all /
insert-all each child collection and relink the tags.  The Bool is `true` on
success and `false` for the "card not found" bail-out. -/
def update_card (s : Store) (id : Nat) (input : CardInput) (now : Nat) :
    Store × Bool :=
  let updated := s.cards.any (fun r => r.id == id)
  let s1 := { s with cards := s.cards.map (scalarUpdate input now id) }
  if updated then
    let s2 := { s1 with
      card_phones := s1.card_phones.filter (fun p => !(p.card_id == id)) }
    let s3 := input.phones.foldl (insertPhoneRow id) s2
    let s4 := { s3 with
      card_emails := s3.card_emails.filter (fun e => !(e.card_id == id)) }
    let s5 := input.emails.foldl (insertEmailRow id) s4
    let s6 := { s5 with
      card_addresses :=
        s5.card_addresses.filter (fun a => !(a.card_id == id)) }
    let s7 := input.addresses.foldl (insertAddressRow id) s6
    (upsert_tags_and_link s7 id input.tags, true)
  else (s1, false)

/-- Models `delete_card`: read `photo_path` first, then `DELETE FROM cards` (the
schema's `ON DELETE CASCADE` removes the child rows and tag links); when no
row was affected the result is `none`. -/
def delete_card (s : Store) (id : Nat) : Store × Option String :=
  let photo := (s.cards.find? (fun r => r.id == id)).map (fun r => r.photo_path)
  let s1 := { s with
    cards := s.cards.filter (fun r => !(r.id == id))
    card_phones := s.card_phones.filter (fun p => !(p.card_id == id))
    card_emails := s.card_emails.filter (fun e => !(e.card_id == id))
    card_addresses := s.card_addresses.filter (fun a => !(a.card_id == id))
    card_tags := s.card_tags.filter (fun l => !(l.1 == id)) }
  if s.cards.any (fun r => r.id == id) then (s1, photo) else (s1, none)

/-- Models `update_card_photo`: set `photo_path`, bump `updated_at`; `false` when the
id is absent. -/
def update_card_photo (s : Store) (id : Nat) (path : String) (now : Nat) :
    Store × Bool :=
  let updated := s.cards.any (fun r => r.id == id)
  let s1 := { s with cards := s.cards.map (fun r =>
    if r.id = id then { r with photo_path := path, updated_at := now } else r) }
  if updated then (s1, true) else (s1, false)

/-- Models `delete_card_photo`: read the old path; when the card exists clear
`photo_path` and return the old value. -/
def delete_card_photo (s : Store) (id : Nat) (now : Nat) :
    Store × Option String :=
  match s.cards.find? (fun r => r.id == id) with
  | none => (s, none)
  | some r =>
      ({ s with cards := s.cards.map (fun c =>
          if c.id = id then { c with photo_path := "", updated_at := now }
          else c) },
       some r.photo_path)

/-- Models `list_tags`: every tag row with the count of its `card_tags` rows
(`LEFT JOIN` keeps zero-count tags), alphabetical by name. -/
def list_tags (s : Store) : List TagCount :=
  (sortByRel (fun a b => decide (a.name ≤ b.name)) s.tags).map
    (fun t => { name := t.name,
                count := (s.card_tags.filter (fun l => l.2 == t.id)).length })

/-! ## Photo handlers (`handlers.rs`) -/

/-- The uploads directory as a flat map from file name to bytes. -/
abbrev FileSys := List (String × List Nat)

/-- Split a character list at every `/`, keeping empty pieces (the same
pieces `str::split('/')` produces). -/
def pathComponents : List Char → List (List Char)
  | [] => [[]]
  | c :: cs =>
      if c == '/' then [] :: pathComponents cs
      else
        match pathComponents cs with
        | comp :: rest => (c :: comp) :: rest
        | [] => [[c]]

/-- The final path component as Rust's `Path::file_name` computes it:
split on `/`, drop empty and `.` components, `None` when the path ends in
`..` or has no normal component. -/
def pathFileName (p : String) : Option String :=
  let comps := (pathComponents p.data).filter
    (fun c => !(c.isEmpty || c == ['.']))
  match comps.getLast? with
  | none => none
  | some last => if last == ['.', '.'] then none else some (String.mk last)

/-- Split a file name at its last dot: `some (before, after)`, `none` when
there is no dot.  Mirrors Rust's `rsplit_file_at_dot`. -/
def lastDotSplit : List Char → Option (List Char × List Char)
  | [] => none
  | c :: rest =>
    match lastDotSplit rest with
    | some (b, a) => some (c :: b, a)
    | none => if c == '.' then some ([], rest) else none

/-- Rust's `Path::extension`: the part of the file name after its last dot;
`None` when there is no file name, no dot, or the file name starts with its
only dot. -/
def rustExtension (p : String) : Option String :=
  match pathFileName p with
  | none => none
  | some f =>
      if f == ".." then none
      else
        match lastDotSplit f.data with
        | none => none
        | some (before, after) =>
            if before.isEmpty then none else some (String.mk after)

/-- The allow-list check `matches!(ext.as_str(), "jpg" | "jpeg" | "png" |
"webp")`. -/
def allowedExt (e : String) : Bool :=
  e == "jpg" || e == "jpeg" || e == "png" || e == "webp"

/-- Models `save_photo`: validate the lower-cased extension against the allow-list
before touching the filesystem; on success write
`card_<id>_<millis>.<ext>` under the uploads root and return
`uploads/<that name>`. -/
def save_photo (fs : FileSys) (card_id millis : Nat) (filename : String)
    (data : List Nat) : FileSys × Except String String :=
  let ext := ((rustExtension filename).map asciiLower).getD ""
  if !allowedExt ext then
    (fs, Except.error "only jpg, png, webp photos are allowed")
  else
    let new_filename :=
      "card_" ++ toString card_id ++ "_" ++ toString millis ++ "." ++ ext
    (fs ++ [(new_filename, data)],
     Except.ok ("uploads/" ++ new_filename))

instance {ε α : Type _} [DecidableEq ε] [DecidableEq α] :
    DecidableEq (Except ε α) := fun a b =>
  match a, b with
  | Except.error e, Except.error f =>
      decidable_of_iff (e = f)
        ⟨by rintro rfl; rfl, by intro hh; injection hh⟩
  | Except.ok x, Except.ok y =>
      decidable_of_iff (x = y)
        ⟨by rintro rfl; rfl, by intro hh; injection hh⟩
  | Except.error _, Except.ok _ => isFalse (by intro hh; injection hh)
  | Except.ok _, Except.error _ => isFalse (by intro hh; injection hh)

/-- Result of the upload-serving route. -/
inductive ServeResult where
  | badRequest : ServeResult
  | ok : List Nat → ServeResult
  | notFound : ServeResult
deriving DecidableEq

/-- Models `serve_uploads`: reject any requested name containing `..` or `/` before
looking at the filesystem; otherwise read the flat name under the uploads
root. -/
def serve_uploads (fs : FileSys) (filename : String) : ServeResult :=
  if occursIn "..".data filename.data || filename.data.contains '/' then
    ServeResult.badRequest
  else
    match fs.find? (fun e => e.1 == filename) with
    | some e => ServeResult.ok e.2
    | none => ServeResult.notFound

/-! ## Spec-side definitions (from the wording of the specification) -/

/-- Spec wording for the tag list a card input should end up with: the
non-blank tag names, duplicates collapsed, sorted alphabetically. -/
def specTags (names : List String) : List String :=
  sortByRel (fun a b => decide (a ≤ b))
    ((names.filter (fun t => trimIsEmpty t = false)).dedup)

/-- Spec wording of the free-text match: the query is a case-insensitive
substring of the name, the company, or some linked email address. -/
def specMatchesQ (s : Store) (q : String) (c : CardRow) : Prop :=
  lowerList q.data <:+: lowerList c.name.data ∨
  lowerList q.data <:+: lowerList c.company.data ∨
  ∃ e ∈ s.card_emails, e.card_id = c.id ∧
    lowerList q.data <:+: lowerList e.address.data

/-- Spec wording of the tag filter: the card is linked to a tag of exactly
that name. -/
def specHasTag (s : Store) (tf : String) (c : CardRow) : Prop :=
  ∃ l ∈ s.card_tags, l.1 = c.id ∧ ∃ t ∈ s.tags, t.id = l.2 ∧ t.name = tf

/-! ## Auxiliary definitions for the proofs -/

/-- The `card_phones` rows produced by inserting the inputs `ps` for card
`cid` starting at AUTOINCREMENT value `n`. -/
def phoneRowsFrom (cid n : Nat) : List CardFormPhoneInput → List PhoneRow
  | [] => []
  | p :: ps =>
      { id := n, card_id := cid, label := p.label, number := p.number } ::
        phoneRowsFrom cid (n + 1) ps

/-- The `card_emails` rows produced by inserting the inputs `es` for card
`cid` starting at AUTOINCREMENT value `n`. -/
def emailRowsFrom (cid n : Nat) : List CardFormEmailInput → List EmailRow
  | [] => []
  | e :: es =>
      { id := n, card_id := cid, label := e.label, address := e.address } ::
        emailRowsFrom cid (n + 1) es

/-- The `card_addresses` rows produced by inserting the inputs `as` for card
`cid` starting at AUTOINCREMENT value `n`. -/
def addressRowsFrom (cid n : Nat) :
    List CardFormAddressInput → List AddressRow
  | [] => []
  | a :: as =>
      { id := n, card_id := cid, label := a.label, street := a.street,
        city := a.city, country := a.country, postal := a.postal } ::
        addressRowsFrom cid (n + 1) as

/-- Invariant of the tag vocabulary relative to one card, maintained by every
iteration of `upsert_tags_and_link`: tag ids and names unique, ids below the
counter, the card's links free of duplicates and referencing existing tags. -/
def TagInv (s : Store) (cid : Nat) : Prop :=
  (s.tags.map (fun t => t.id)).Nodup ∧
  (s.tags.map (fun t => t.name)).Nodup ∧
  (∀ t ∈ s.tags, t.id < s.next_tag_id) ∧
  (linksFor s cid).Nodup ∧
  (∀ tid ∈ linksFor s cid, ∃ t ∈ s.tags, t.id = tid)

/-! ## Concrete fixtures used by the witnesses -/

/-- A sample card input: two phones, one email, one address, a duplicated tag
and a blank tag entry. -/
def inputA : CardInput :=
  { name := "Ann", title := "Dev", company := "Acme", website := "a.io",
    notes := "met", phones := [{ label := "m", number := "1" },
                               { label := "w", number := "2" }],
    emails := [{ label := "w", address := "ann@x.com" }],
    addresses := [{ label := "o", street := "s", city := "c",
                    country := "sg", postal := "1" }],
    tags := ["b", "a", "b", " "] }

/-- A store holding just the card created from `inputA` (id 1). -/
def storeA : Store := (create_card initStore inputA 5).1

/-- A minimal input whose only tag is `"t"`. -/
def inputT : CardInput :=
  { name := "Tom", title := "", company := "", website := "", notes := "",
    phones := [], emails := [{ label := "w", address := "t@y.com" }],
    addresses := [], tags := ["t"] }

/-- A store holding just the card created from `inputT` (id 1). -/
def storeT : Store := (create_card initStore inputT 0).1

/-! ## Generic lemmas about the `ORDER BY` model -/

theorem insertOrdered_perm (le : α → α → Bool) (x : α) (l : List α) :
    (insertOrdered le x l).Perm (x :: l) := by
  induction l with
  | nil => simp [insertOrdered]
  | cons y ys ih =>
      by_cases h : le x y = true
      · simp [insertOrdered, h]
      · have h1 : insertOrdered le x (y :: ys) = y :: insertOrdered le x ys := by
          simp [insertOrdered, h]
        rw [h1]
        exact (ih.cons y).trans (List.Perm.swap x y ys)

theorem sortByRel_perm (le : α → α → Bool) (l : List α) :
    (sortByRel le l).Perm l := by
  induction l with
  | nil => simp [sortByRel]
  | cons x xs ih =>
      exact (insertOrdered_perm le x (sortByRel le xs)).trans (ih.cons x)

theorem mem_sortByRel (le : α → α → Bool) (l : List α) (a : α) :
    a ∈ sortByRel le l ↔ a ∈ l :=
  (sortByRel_perm le l).mem_iff

theorem insertOrdered_pairwise (le : α → α → Bool)
    (htot : ∀ a b, le a b = true ∨ le b a = true)
    (htrans : ∀ a b c, le a b = true → le b c = true → le a c = true)
    (x : α) (l : List α) (h : l.Pairwise (fun a b => le a b = true)) :
    (insertOrdered le x l).Pairwise (fun a b => le a b = true) := by
  induction l with
  | nil => simp [insertOrdered]
  | cons y ys ih =>
      rcases List.pairwise_cons.mp h with ⟨hy, hys⟩
      by_cases hxy : le x y = true
      · have h1 : insertOrdered le x (y :: ys) = x :: y :: ys := by
          simp [insertOrdered, hxy]
        rw [h1]
        refine List.pairwise_cons.mpr ⟨?_, h⟩
        intro z hz
        rcases List.mem_cons.mp hz with hz1 | hz1
        · subst hz1; exact hxy
        · exact htrans x y z hxy (hy z hz1)
      · have hyx : le y x = true := (htot x y).resolve_left hxy
        have h1 : insertOrdered le x (y :: ys) = y :: insertOrdered le x ys := by
          simp [insertOrdered, hxy]
        rw [h1]
        refine List.pairwise_cons.mpr ⟨?_, ih hys⟩
        intro z hz
        rcases List.mem_cons.mp ((insertOrdered_perm le x ys).mem_iff.mp hz) with
          hz1 | hz1
        · subst hz1; exact hyx
        · exact hy z hz1

theorem sortByRel_pairwise (le : α → α → Bool)
    (htot : ∀ a b, le a b = true ∨ le b a = true)
    (htrans : ∀ a b c, le a b = true → le b c = true → le a c = true)
    (l : List α) :
    (sortByRel le l).Pairwise (fun a b => le a b = true) := by
  induction l with
  | nil => simp [sortByRel]
  | cons x xs ih =>
      exact insertOrdered_pairwise le htot htrans x (sortByRel le xs) ih

theorem sortByRel_eq_self (le : α → α → Bool) (l : List α)
    (h : l.Pairwise (fun a b => le a b = true)) : sortByRel le l = l := by
  induction l with
  | nil => rfl
  | cons x xs ih =>
      rcases List.pairwise_cons.mp h with ⟨hx, hxs⟩
      have : sortByRel le (x :: xs) = insertOrdered le x xs := by
        simp [sortByRel, ih hxs]
      rw [this]
      cases xs with
      | nil => rfl
      | cons y ys => simp [insertOrdered, hx y (by simp)]

theorem sortByRel_eq_of_perm (le : α → α → Bool)
    (hanti : ∀ a b, le a b = true → le b a = true → a = b)
    (htot : ∀ a b, le a b = true ∨ le b a = true)
    (htrans : ∀ a b c, le a b = true → le b c = true → le a c = true)
    {l₁ l₂ : List α} (hp : l₁.Perm l₂) :
    sortByRel le l₁ = sortByRel le l₂ := by
  haveI : IsAntisymm α (fun a b => le a b = true) := ⟨hanti⟩
  exact List.eq_of_perm_of_sorted
    (((sortByRel_perm le l₁).trans hp).trans (sortByRel_perm le l₂).symm)
    (sortByRel_pairwise le htot htrans l₁)
    (sortByRel_pairwise le htot htrans l₂)

theorem strLe_total : ∀ a b : String,
    (decide (a ≤ b)) = true ∨ (decide (b ≤ a)) = true := by
  intro a b
  rcases le_total a b with h | h
  · exact Or.inl (decide_eq_true_iff.mpr h)
  · exact Or.inr (decide_eq_true_iff.mpr h)

theorem strLe_trans : ∀ a b c : String,
    (decide (a ≤ b)) = true → (decide (b ≤ c)) = true →
    (decide (a ≤ c)) = true := by
  intro a b c h₁ h₂
  exact decide_eq_true_iff.mpr
    (le_trans (decide_eq_true_iff.mp h₁) (decide_eq_true_iff.mp h₂))

theorem strLe_anti : ∀ a b : String,
    (decide (a ≤ b)) = true → (decide (b ≤ a)) = true → a = b := by
  intro a b h₁ h₂
  exact le_antisymm (decide_eq_true_iff.mp h₁) (decide_eq_true_iff.mp h₂)

/-! ## Generic lemmas about `find?` -/

theorem find?_append_false {p : α → Bool} {l₁ l₂ : List α}
    (h : ∀ x ∈ l₁, p x = false) : (l₁ ++ l₂).find? p = l₂.find? p := by
  rw [List.find?_append]
  have : l₁.find? p = none := List.find?_eq_none.mpr (by
    intro x hx
    simp [h x hx])
  simp [this]

theorem find?_append_left {p : α → Bool} {l₁ l₂ : List α} {x : α}
    (h : l₁.find? p = some x) : (l₁ ++ l₂).find? p = some x := by
  rw [List.find?_append, h, Option.or_some]

theorem find?_key_unique {κ : Type _} [BEq κ] [LawfulBEq κ] (f : α → κ)
    {l : List α} (h : (l.map f).Nodup) {x : α} (hx : x ∈ l) :
    l.find? (fun y => f y == f x) = some x := by
  induction l with
  | nil => cases hx
  | cons y ys ih =>
      rw [List.map_cons] at h
      rcases List.nodup_cons.mp h with ⟨hy, hys⟩
      by_cases hfy : f y = f x
      · have hxy : x = y := by
          rcases List.mem_cons.mp hx with hx1 | hx1
          · exact hx1
          · have h2 : f x ∈ ys.map f := List.mem_map_of_mem f hx1
            rw [← hfy] at h2
            exact absurd h2 hy
        subst hxy
        simp [List.find?_cons, hfy]
      · have hmem : x ∈ ys := by
          rcases List.mem_cons.mp hx with hx1 | hx1
          · exact absurd (congrArg f hx1).symm hfy
          · exact hx1
        have hbeq : (f y == f x) = false := by
          simp [hfy]
        simp only [List.find?_cons, hbeq]
        exact ih hys hmem

theorem find?_beq_of_mem_nodup {l : List CardRow}
    (h : (l.map (fun c => c.id)).Nodup) {r : CardRow} (hr : r ∈ l) :
    l.find? (fun y => y.id == r.id) = some r :=
  find?_key_unique (fun c => c.id) h hr

/-! ## Substring and `LIKE` semantics -/

theorem headMatches_iff (p : List Char) :
    ∀ h : List Char, headMatches p h = true ↔ p <+: h := by
  induction p with
  | nil => intro h; simp [headMatches, List.nil_prefix]
  | cons a as ih =>
      intro h
      cases h with
      | nil => simp [headMatches, List.prefix_nil]
      | cons c cs =>
          simp [headMatches, List.cons_prefix_cons, Bool.and_eq_true,
            beq_iff_eq, ih cs]

theorem occursIn_iff (p h : List Char) : occursIn p h = true ↔ p <:+: h := by
  induction h with
  | nil => simp [occursIn, List.infix_nil, List.isEmpty_iff]
  | cons c cs ih =>
      simp only [occursIn, Bool.or_eq_true, headMatches_iff, ih,
        List.infix_cons_iff]

theorem likeMatch_pct (ps : List Char) (s : List Char) :
    likeMatch ('%' :: ps) s = true ↔
      ∃ t, t <:+ s ∧ likeMatch ps t = true := by
  have hunf : likeMatch ('%' :: ps) s =
      s.tails.any (fun t => likeMatch ps t) := by
    simp [likeMatch]
  rw [hunf, List.any_eq_true]
  constructor
  · rintro ⟨t, ht, h⟩
    exact ⟨t, (List.mem_tails t s).mp ht, h⟩
  · rintro ⟨t, ht, h⟩
    exact ⟨t, (List.mem_tails t s).mpr ht, h⟩

theorem likeMatch_lit_pct (q : List Char)
    (hq : ∀ c ∈ q, c ≠ '%' ∧ c ≠ '_') :
    ∀ s : List Char, (likeMatch (q ++ ['%']) s = true ↔
      lowerList q <+: lowerList s) := by
  induction q with
  | nil =>
      intro s
      have h1 : likeMatch ('%' :: []) s = true :=
        (likeMatch_pct [] s).mpr ⟨[], List.nil_suffix, rfl⟩
      simpa [lowerList, List.nil_prefix] using h1
  | cons a as ih =>
      intro s
      have ha := hq a (by simp)
      have ha1 : (a == '%') = false := by simp [ha.1]
      have ha2 : (a == '_') = false := by simp [ha.2]
      cases s with
      | nil =>
          have h0 : likeMatch (a :: (as ++ ['%'])) [] = false := by
            simp [likeMatch, ha1]
          simp [h0, lowerList, List.prefix_nil]
      | cons c cs =>
          have hunf : likeMatch ((a :: as) ++ ['%']) (c :: cs) =
              ((asciiLowerChar a == asciiLowerChar c) &&
                likeMatch (as ++ ['%']) cs) := by
            simp [likeMatch, ha1, ha2]
          rw [hunf]
          have ihs := ih (fun c hc => hq c (by simp [hc])) cs
          simp [Bool.and_eq_true, beq_iff_eq, ihs, lowerList,
            List.cons_prefix_cons]

theorem lowerList_split (s : List Char) :
    ∀ t₁ t₂ : List Char, lowerList s = t₁ ++ t₂ →
      ∃ s₁ s₂, s = s₁ ++ s₂ ∧ lowerList s₁ = t₁ ∧ lowerList s₂ = t₂ := by
  induction s with
  | nil =>
      intro t₁ t₂ h
      rcases List.append_eq_nil.mp h.symm with ⟨rfl, rfl⟩
      exact ⟨[], [], rfl, rfl, rfl⟩
  | cons c cs ih =>
      intro t₁ t₂ h
      cases t₁ with
      | nil =>
          exact ⟨[], c :: cs, rfl, rfl, by simpa using h⟩
      | cons u t₁ =>
          have h1 : asciiLowerChar c = u ∧ lowerList cs = t₁ ++ t₂ := by
            have h2 := h
            simp only [lowerList, List.map_cons, List.cons_append] at h2
            exact ⟨by injection h2, by injection h2⟩
          rcases ih t₁ t₂ h1.2 with ⟨s₁, s₂, hcs, hl₁, hl₂⟩
          refine ⟨c :: s₁, s₂, by simp [hcs], ?_, hl₂⟩
          simp only [lowerList, List.map_cons] at hl₁ ⊢
          rw [h1.1, hl₁]

/-- For a query free of the `LIKE` metacharacters `%` and `_`, the pattern
`'%' ++ q ++ '%'` matches a string exactly when the lower-cased query is a
contiguous substring of the lower-cased string. -/
theorem likeContains_iff (q hay : String)
    (hq : ∀ c ∈ q.data, c ≠ '%' ∧ c ≠ '_') :
    likeContains q hay = true ↔ lowerList q.data <:+: lowerList hay.data := by
  unfold likeContains
  rw [likeMatch_pct (q.data ++ ['%']) hay.data, List.infix_iff_prefix_suffix]
  constructor
  · rintro ⟨t, ⟨t₁, ht⟩, h⟩
    refine ⟨lowerList t, (likeMatch_lit_pct q.data hq t).mp h, ⟨lowerList t₁, ?_⟩⟩
    simp only [lowerList, ← List.map_append]
    exact congrArg (List.map asciiLowerChar) ht
  · rintro ⟨u, hpre, ⟨u₁, hu⟩⟩
    rcases lowerList_split hay.data u₁ u hu.symm with ⟨s₁, s₂, heq, hl₁, hl₂⟩
    refine ⟨s₂, ⟨s₁, heq.symm⟩, (likeMatch_lit_pct q.data hq s₂).mpr ?_⟩
    rw [hl₂]
    exact hpre

/-! ## The child-collection insert loops -/

theorem phoneRowsFrom_card_id (cid : Nat) :
    ∀ (ps : List CardFormPhoneInput) (n : Nat),
      ∀ r ∈ phoneRowsFrom cid n ps, r.card_id = cid := by
  intro ps
  induction ps with
  | nil => intro n r hr; cases hr
  | cons p ps ih =>
      intro n r hr
      rcases List.mem_cons.mp hr with h | h
      · rw [h]
      · exact ih (n + 1) r h

theorem phoneRowsFrom_id_ge (cid : Nat) :
    ∀ (ps : List CardFormPhoneInput) (n : Nat),
      ∀ r ∈ phoneRowsFrom cid n ps, n ≤ r.id := by
  intro ps
  induction ps with
  | nil => intro n r hr; cases hr
  | cons p ps ih =>
      intro n r hr
      rcases List.mem_cons.mp hr with h | h
      · rw [h]
      · exact Nat.le_of_succ_le (ih (n + 1) r h)

theorem phoneRowsFrom_pairwise (cid : Nat) :
    ∀ (ps : List CardFormPhoneInput) (n : Nat),
      (phoneRowsFrom cid n ps).Pairwise (fun a b => a.id < b.id) := by
  intro ps
  induction ps with
  | nil => intro n; simp [phoneRowsFrom]
  | cons p ps ih =>
      intro n
      refine List.pairwise_cons.mpr ⟨?_, ih (n + 1)⟩
      intro r hr
      exact Nat.lt_of_lt_of_le (Nat.lt_succ_self n)
        (phoneRowsFrom_id_ge cid ps (n + 1) r hr)

theorem phoneRowsFrom_pairs (cid : Nat) :
    ∀ (ps : List CardFormPhoneInput) (n : Nat),
      (phoneRowsFrom cid n ps).map (fun r => (r.label, r.number)) =
        ps.map (fun p => (p.label, p.number)) := by
  intro ps
  induction ps with
  | nil => intro n; rfl
  | cons p ps ih => intro n; simp [phoneRowsFrom, ih (n + 1)]

theorem emailRowsFrom_card_id (cid : Nat) :
    ∀ (es : List CardFormEmailInput) (n : Nat),
      ∀ r ∈ emailRowsFrom cid n es, r.card_id = cid := by
  intro es
  induction es with
  | nil => intro n r hr; cases hr
  | cons e es ih =>
      intro n r hr
      rcases List.mem_cons.mp hr with h | h
      · rw [h]
      · exact ih (n + 1) r h

theorem emailRowsFrom_id_ge (cid : Nat) :
    ∀ (es : List CardFormEmailInput) (n : Nat),
      ∀ r ∈ emailRowsFrom cid n es, n ≤ r.id := by
  intro es
  induction es with
  | nil => intro n r hr; cases hr
  | cons e es ih =>
      intro n r hr
      rcases List.mem_cons.mp hr with h | h
      · rw [h]
      · exact Nat.le_of_succ_le (ih (n + 1) r h)

theorem emailRowsFrom_pairwise (cid : Nat) :
    ∀ (es : List CardFormEmailInput) (n : Nat),
      (emailRowsFrom cid n es).Pairwise (fun a b => a.id < b.id) := by
  intro es
  induction es with
  | nil => intro n; simp [emailRowsFrom]
  | cons e es ih =>
      intro n
      refine List.pairwise_cons.mpr ⟨?_, ih (n + 1)⟩
      intro r hr
      exact Nat.lt_of_lt_of_le (Nat.lt_succ_self n)
        (emailRowsFrom_id_ge cid es (n + 1) r hr)

theorem emailRowsFrom_pairs (cid : Nat) :
    ∀ (es : List CardFormEmailInput) (n : Nat),
      (emailRowsFrom cid n es).map (fun r => (r.label, r.address)) =
        es.map (fun e => (e.label, e.address)) := by
  intro es
  induction es with
  | nil => intro n; rfl
  | cons e es ih => intro n; simp [emailRowsFrom, ih (n + 1)]

theorem addressRowsFrom_card_id (cid : Nat) :
    ∀ (l : List CardFormAddressInput) (n : Nat),
      ∀ r ∈ addressRowsFrom cid n l, r.card_id = cid := by
  intro l
  induction l with
  | nil => intro n r hr; cases hr
  | cons a as ih =>
      intro n r hr
      rcases List.mem_cons.mp hr with h | h
      · rw [h]
      · exact ih (n + 1) r h

theorem addressRowsFrom_id_ge (cid : Nat) :
    ∀ (l : List CardFormAddressInput) (n : Nat),
      ∀ r ∈ addressRowsFrom cid n l, n ≤ r.id := by
  intro l
  induction l with
  | nil => intro n r hr; cases hr
  | cons a as ih =>
      intro n r hr
      rcases List.mem_cons.mp hr with h | h
      · rw [h]
      · exact Nat.le_of_succ_le (ih (n + 1) r h)

theorem addressRowsFrom_pairwise (cid : Nat) :
    ∀ (l : List CardFormAddressInput) (n : Nat),
      (addressRowsFrom cid n l).Pairwise (fun a b => a.id < b.id) := by
  intro l
  induction l with
  | nil => intro n; simp [addressRowsFrom]
  | cons a as ih =>
      intro n
      refine List.pairwise_cons.mpr ⟨?_, ih (n + 1)⟩
      intro r hr
      exact Nat.lt_of_lt_of_le (Nat.lt_succ_self n)
        (addressRowsFrom_id_ge cid as (n + 1) r hr)

theorem addressRowsFrom_pairs (cid : Nat) :
    ∀ (l : List CardFormAddressInput) (n : Nat),
      (addressRowsFrom cid n l).map
          (fun r => (r.label, r.street, r.city, r.country, r.postal)) =
        l.map (fun a => (a.label, a.street, a.city, a.country, a.postal)) := by
  intro l
  induction l with
  | nil => intro n; rfl
  | cons a as ih => intro n; simp [addressRowsFrom, ih (n + 1)]

theorem phones_foldl (cid : Nat) :
    ∀ (ps : List CardFormPhoneInput) (s : Store),
      ps.foldl (insertPhoneRow cid) s =
        { s with card_phones :=
                   s.card_phones ++ phoneRowsFrom cid s.next_phone_id ps
                 next_phone_id := s.next_phone_id + ps.length } := by
  intro ps
  induction ps with
  | nil => intro s; simp [phoneRowsFrom]
  | cons p ps ih =>
      intro s
      rw [List.foldl_cons, ih]
      simp [insertPhoneRow, phoneRowsFrom, List.append_assoc,
        Nat.add_comm, Nat.add_assoc, Nat.add_left_comm]

theorem emails_foldl (cid : Nat) :
    ∀ (es : List CardFormEmailInput) (s : Store),
      es.foldl (insertEmailRow cid) s =
        { s with card_emails :=
                   s.card_emails ++ emailRowsFrom cid s.next_email_id es
                 next_email_id := s.next_email_id + es.length } := by
  intro es
  induction es with
  | nil => intro s; simp [emailRowsFrom]
  | cons e es ih =>
      intro s
      rw [List.foldl_cons, ih]
      simp [insertEmailRow, emailRowsFrom, List.append_assoc,
        Nat.add_comm, Nat.add_assoc, Nat.add_left_comm]

theorem addresses_foldl (cid : Nat) :
    ∀ (l : List CardFormAddressInput) (s : Store),
      l.foldl (insertAddressRow cid) s =
        { s with card_addresses :=
                   s.card_addresses ++ addressRowsFrom cid s.next_address_id l
                 next_address_id := s.next_address_id + l.length } := by
  intro l
  induction l with
  | nil => intro s; simp [addressRowsFrom]
  | cons a as ih =>
      intro s
      rw [List.foldl_cons, ih]
      simp [insertAddressRow, addressRowsFrom, List.append_assoc,
        Nat.add_comm, Nat.add_assoc, Nat.add_left_comm]

/-! ## Fields untouched by the tag loop -/

theorem find?_isSome_of_any {p : α → Bool} {l : List α}
    (h : l.any p = true) : ∃ x, l.find? p = some x := by
  cases hf : l.find? p with
  | some x => exact ⟨x, rfl⟩
  | none =>
      rcases List.any_eq_true.mp h with ⟨x, hx, hpx⟩
      exact absurd hpx (by simpa using (List.find?_eq_none.mp hf) x hx)

theorem upsertTagStep_blank (cid : Nat) {s : Store} {n : String}
    (h : trimIsEmpty n = true) : upsertTagStep cid s n = s := by
  simp [upsertTagStep, h]

theorem upsertTagStep_found (cid : Nat) {s : Store} {n : String}
    (h1 : trimIsEmpty n = false)
    (h2 : (s.tags.any fun t => t.name == n) = true)
    {t : TagRow} (hf : s.tags.find? (fun t => t.name == n) = some t) :
    upsertTagStep cid s n =
      if s.card_tags.contains (cid, t.id) then s
      else { s with card_tags := s.card_tags ++ [(cid, t.id)] } := by
  simp [upsertTagStep, h1, h2, hf]

theorem upsertTagStep_new (cid : Nat) {s : Store} {n : String}
    (h1 : trimIsEmpty n = false)
    (h2 : (s.tags.any fun t => t.name == n) = false) :
    upsertTagStep cid s n =
      (if s.card_tags.contains (cid, s.next_tag_id) then
        { s with tags := s.tags ++ [{ id := s.next_tag_id, name := n }]
                 next_tag_id := s.next_tag_id + 1 }
      else
        { s with tags := s.tags ++ [{ id := s.next_tag_id, name := n }]
                 next_tag_id := s.next_tag_id + 1
                 card_tags := s.card_tags ++ [(cid, s.next_tag_id)] }) := by
  have hfind : (s.tags ++ [({ id := s.next_tag_id, name := n } : TagRow)]).find?
      (fun t => t.name == n) = some { id := s.next_tag_id, name := n } := by
    rw [find?_append_false]
    · simp [List.find?_cons]
    · intro x hx
      simpa using (List.any_eq_false.mp h2) x hx
  by_cases hc : s.card_tags.contains (cid, s.next_tag_id) = true
  · simp [upsertTagStep, h1, h2, hfind, hc]
  · simp only [Bool.not_eq_true] at hc
    simp [upsertTagStep, h1, h2, hfind, hc]

theorem upsertTagStep_fields (cid : Nat) (s : Store) (n : String) :
    (upsertTagStep cid s n).cards = s.cards ∧
    (upsertTagStep cid s n).card_phones = s.card_phones ∧
    (upsertTagStep cid s n).card_emails = s.card_emails ∧
    (upsertTagStep cid s n).card_addresses = s.card_addresses ∧
    (upsertTagStep cid s n).next_card_id = s.next_card_id ∧
    (upsertTagStep cid s n).next_phone_id = s.next_phone_id ∧
    (upsertTagStep cid s n).next_email_id = s.next_email_id ∧
    (upsertTagStep cid s n).next_address_id = s.next_address_id := by
  by_cases h1 : trimIsEmpty n = true
  · rw [upsertTagStep_blank cid h1]
    exact ⟨rfl, rfl, rfl, rfl, rfl, rfl, rfl, rfl⟩
  · replace h1 : trimIsEmpty n = false := by simpa using h1
    by_cases h2 : (s.tags.any fun t => t.name == n) = true
    · obtain ⟨t, hf⟩ := find?_isSome_of_any h2
      rw [upsertTagStep_found cid h1 h2 hf]
      split <;> exact ⟨rfl, rfl, rfl, rfl, rfl, rfl, rfl, rfl⟩
    · replace h2 : (s.tags.any fun t => t.name == n) = false := by simpa using h2
      rw [upsertTagStep_new cid h1 h2]
      split <;> exact ⟨rfl, rfl, rfl, rfl, rfl, rfl, rfl, rfl⟩

theorem upsert_foldl_fields (cid : Nat) :
    ∀ (ns : List String) (s : Store),
      (ns.foldl (upsertTagStep cid) s).cards = s.cards ∧
      (ns.foldl (upsertTagStep cid) s).card_phones = s.card_phones ∧
      (ns.foldl (upsertTagStep cid) s).card_emails = s.card_emails ∧
      (ns.foldl (upsertTagStep cid) s).card_addresses = s.card_addresses ∧
      (ns.foldl (upsertTagStep cid) s).next_card_id = s.next_card_id ∧
      (ns.foldl (upsertTagStep cid) s).next_phone_id = s.next_phone_id ∧
      (ns.foldl (upsertTagStep cid) s).next_email_id = s.next_email_id ∧
      (ns.foldl (upsertTagStep cid) s).next_address_id = s.next_address_id := by
  intro ns
  induction ns with
  | nil => intro s; simp
  | cons n ns ih =>
      intro s
      rw [List.foldl_cons]
      obtain ⟨h1, h2, h3, h4, h5, h6, h7, h8⟩ :=
        upsertTagStep_fields cid s n
      obtain ⟨g1, g2, g3, g4, g5, g6, g7, g8⟩ := ih (upsertTagStep cid s n)
      exact ⟨g1.trans h1, g2.trans h2, g3.trans h3, g4.trans h4,
        g5.trans h5, g6.trans h6, g7.trans h7, g8.trans h8⟩

theorem upsert_fields (s : Store) (cid : Nat) (ns : List String) :
    (upsert_tags_and_link s cid ns).cards = s.cards ∧
    (upsert_tags_and_link s cid ns).card_phones = s.card_phones ∧
    (upsert_tags_and_link s cid ns).card_emails = s.card_emails ∧
    (upsert_tags_and_link s cid ns).card_addresses = s.card_addresses ∧
    (upsert_tags_and_link s cid ns).next_card_id = s.next_card_id ∧
    (upsert_tags_and_link s cid ns).next_phone_id = s.next_phone_id ∧
    (upsert_tags_and_link s cid ns).next_email_id = s.next_email_id ∧
    (upsert_tags_and_link s cid ns).next_address_id = s.next_address_id := by
  unfold upsert_tags_and_link
  exact upsert_foldl_fields cid ns _

/-! ## The tag-linking invariant -/

theorem contains_pair_mem {l : List (Nat × Nat)} {x : Nat × Nat} :
    l.contains x = true ↔ x ∈ l := by
  simp [List.contains]

theorem linksFor_mem (s : Store) (cid tid : Nat) :
    tid ∈ linksFor s cid ↔ (cid, tid) ∈ s.card_tags := by
  simp only [linksFor, List.mem_map, List.mem_filter, beq_iff_eq]
  constructor
  · rintro ⟨l, ⟨hl, hl1⟩, hl2⟩
    have hx : l = (cid, tid) := Prod.ext_iff.mpr ⟨hl1, hl2⟩
    exact hx ▸ hl
  · intro h
    exact ⟨(cid, tid), ⟨h, rfl⟩, rfl⟩

theorem tagNameOf_mem (s : Store)
    (hids : (s.tags.map (fun t => t.id)).Nodup)
    {t : TagRow} (ht : t ∈ s.tags) : tagNameOf s t.id = some t.name := by
  unfold tagNameOf
  rw [find?_key_unique (fun t => t.id) hids ht]
  rfl

theorem tagNameOf_some {s : Store} {tid : Nat} {m : String}
    (h : tagNameOf s tid = some m) :
    ∃ t ∈ s.tags, t.id = tid ∧ t.name = m := by
  unfold tagNameOf at h
  cases hf : s.tags.find? (fun t => t.id == tid) with
  | none => rw [hf] at h; cases h
  | some t =>
      rw [hf] at h
      exact ⟨t, List.mem_of_find?_eq_some hf,
        by simpa using List.find?_some hf, by simpa using h⟩

theorem linkedTagNames_mem (s : Store) (cid : Nat)
    (hids : (s.tags.map (fun t => t.id)).Nodup) (m : String) :
    m ∈ linkedTagNames s cid ↔
      ∃ t ∈ s.tags, t.name = m ∧ (cid, t.id) ∈ s.card_tags := by
  unfold linkedTagNames
  rw [List.mem_filterMap]
  constructor
  · rintro ⟨tid, htid, hname⟩
    rcases tagNameOf_some hname with ⟨t, htmem, hteq, htname⟩
    exact ⟨t, htmem, htname,
      hteq ▸ (linksFor_mem s cid tid).mp htid⟩
  · rintro ⟨t, htmem, hname, hlink⟩
    exact ⟨t.id, (linksFor_mem s cid t.id).mpr hlink,
      by rw [tagNameOf_mem s hids htmem, hname]⟩

theorem linkedTagNames_nodup (s : Store) (cid : Nat)
    (hids : (s.tags.map (fun t => t.id)).Nodup)
    (hnames : (s.tags.map (fun t => t.name)).Nodup)
    (hlinks : (linksFor s cid).Nodup) :
    (linkedTagNames s cid).Nodup := by
  apply List.Nodup.filterMap _ hlinks
  intro a a' b hb hb'
  rw [Option.mem_def] at hb hb'
  rcases tagNameOf_some hb with ⟨r, hrm, hra, hrb⟩
  rcases tagNameOf_some hb' with ⟨r', hrm', hra', hrb'⟩
  have hrr : r = r' :=
    List.inj_on_of_nodup_map hnames hrm hrm' (hrb.trans hrb'.symm)
  rw [← hra, ← hra', hrr]

theorem upsertTagStep_spec (cid : Nat) (s : Store) (n : String)
    (hinv : TagInv s cid) :
    TagInv (upsertTagStep cid s n) cid ∧
    s.tags <+: (upsertTagStep cid s n).tags ∧
    (∀ m, m ∈ linkedTagNames (upsertTagStep cid s n) cid ↔
      (m ∈ linkedTagNames s cid ∨ (trimIsEmpty n = false ∧ m = n))) := by
  obtain ⟨hids, hnames, hbound, hlinks, hvalid⟩ := hinv
  by_cases h1 : trimIsEmpty n = true
  · rw [upsertTagStep_blank cid h1]
    refine ⟨⟨hids, hnames, hbound, hlinks, hvalid⟩, List.prefix_refl _, ?_⟩
    intro m
    simp [h1]
  · replace h1 : trimIsEmpty n = false := by simpa using h1
    by_cases h2 : (s.tags.any fun t => t.name == n) = true
    · obtain ⟨t, hf⟩ := find?_isSome_of_any h2
      have htmem : t ∈ s.tags := List.mem_of_find?_eq_some hf
      have htname : t.name = n := by simpa using List.find?_some hf
      rw [upsertTagStep_found cid h1 h2 hf]
      by_cases hc : s.card_tags.contains (cid, t.id) = true
      · rw [if_pos hc]
        refine ⟨⟨hids, hnames, hbound, hlinks, hvalid⟩, List.prefix_refl _, ?_⟩
        intro m
        have hn : n ∈ linkedTagNames s cid :=
          (linkedTagNames_mem s cid hids n).mpr
            ⟨t, htmem, htname, contains_pair_mem.mp hc⟩
        constructor
        · exact Or.inl
        · rintro (h | ⟨-, rfl⟩)
          · exact h
          · exact hn
      · rw [if_neg hc]
        replace hc : (cid, t.id) ∉ s.card_tags :=
          fun h => hc (contains_pair_mem.mpr h)
        have hlf : linksFor
            { s with card_tags := s.card_tags ++ [(cid, t.id)] } cid =
            linksFor s cid ++ [t.id] := by
          simp [linksFor, List.filter_append]
        have hltn : linkedTagNames
            { s with card_tags := s.card_tags ++ [(cid, t.id)] } cid =
            linkedTagNames s cid ++ [t.name] := by
          unfold linkedTagNames
          rw [hlf, List.filterMap_append]
          have htn : tagNameOf
              { s with card_tags := s.card_tags ++ [(cid, t.id)] } t.id =
              some t.name := tagNameOf_mem _ hids htmem
          have hcongr : List.filterMap
              (tagNameOf { s with card_tags := s.card_tags ++ [(cid, t.id)] })
              (linksFor s cid) =
              List.filterMap (tagNameOf s) (linksFor s cid) :=
            List.filterMap_congr (fun x _ => rfl)
          rw [hcongr]
          simp [htn]
        have hnotin : t.id ∉ linksFor s cid := by
          intro h
          exact hc ((linksFor_mem s cid t.id).mp h)
        refine ⟨⟨hids, hnames, hbound, ?_, ?_⟩, List.prefix_refl _, ?_⟩
        · rw [hlf]
          simp [List.nodup_append, hlinks, List.Disjoint]
          intro a ha hat
          exact hnotin (hat ▸ ha)
        · rw [hlf]
          intro tid htid
          rcases List.mem_append.mp htid with h | h
          · exact hvalid tid h
          · have : tid = t.id := by simpa using h
            exact ⟨t, htmem, this.symm⟩
        · intro m
          rw [hltn, List.mem_append]
          constructor
          · rintro (h | h)
            · exact Or.inl h
            · have : m = t.name := by simpa using h
              exact Or.inr ⟨h1, this.trans htname⟩
          · rintro (h | ⟨-, rfl⟩)
            · exact Or.inl h
            · exact Or.inr (by simp [htname])
    · replace h2 : (s.tags.any fun t => t.name == n) = false := by
        simpa using h2
      have hnotin : (cid, s.next_tag_id) ∉ s.card_tags := by
        intro hmem
        rcases hvalid s.next_tag_id
          ((linksFor_mem s cid s.next_tag_id).mpr hmem) with ⟨t, htm, hteq⟩
        exact absurd (hteq ▸ hbound t htm) (lt_irrefl _)
      have hcont : s.card_tags.contains (cid, s.next_tag_id) = false := by
        cases hcc : s.card_tags.contains (cid, s.next_tag_id) with
        | false => rfl
        | true => exact absurd (contains_pair_mem.mp hcc) hnotin
      rw [upsertTagStep_new cid h1 h2,
        if_neg (fun hcc => Bool.false_ne_true (hcont ▸ hcc))]
      have hidnot : s.next_tag_id ∉ s.tags.map (fun t => t.id) := by
        intro h
        rcases List.mem_map.mp h with ⟨t, htm, hteq⟩
        exact absurd (hteq ▸ hbound t htm) (lt_irrefl _)
      have hnamenot : n ∉ s.tags.map (fun t => t.name) := by
        intro h
        rcases List.mem_map.mp h with ⟨t, htm, hteq⟩
        have := (List.any_eq_false.mp h2) t htm
        simp [hteq] at this
      have hlf : linksFor
          { s with tags := s.tags ++ [{ id := s.next_tag_id, name := n }],
                   next_tag_id := s.next_tag_id + 1,
                   card_tags := s.card_tags ++ [(cid, s.next_tag_id)] } cid =
          linksFor s cid ++ [s.next_tag_id] := by
        simp [linksFor, List.filter_append]
      have htnnew : tagNameOf
          { s with tags := s.tags ++ [{ id := s.next_tag_id, name := n }],
                   next_tag_id := s.next_tag_id + 1,
                   card_tags := s.card_tags ++ [(cid, s.next_tag_id)] }
          s.next_tag_id = some n := by
        unfold tagNameOf
        rw [show ({ s with
              tags := s.tags ++ [{ id := s.next_tag_id, name := n }],
              next_tag_id := s.next_tag_id + 1,
              card_tags := s.card_tags ++ [(cid, s.next_tag_id)] } :
            Store).tags =
            s.tags ++ [{ id := s.next_tag_id, name := n }] from rfl]
        rw [find?_append_false]
        · simp [List.find?_cons]
        · intro x hx
          have hxlt := hbound x hx
          simp [Nat.ne_of_lt hxlt]
      have htnold : ∀ tid ∈ linksFor s cid, tagNameOf
          { s with tags := s.tags ++ [{ id := s.next_tag_id, name := n }],
                   next_tag_id := s.next_tag_id + 1,
                   card_tags := s.card_tags ++ [(cid, s.next_tag_id)] } tid =
          tagNameOf s tid := by
        intro tid htid
        rcases hvalid tid htid with ⟨t, htm, hteq⟩
        have h3 : tagNameOf s t.id = some t.name := tagNameOf_mem s hids htm
        unfold tagNameOf at h3 ⊢
        rw [← hteq]
        cases hfs : s.tags.find? (fun x => x.id == t.id) with
        | none => rw [hfs] at h3; cases h3
        | some r =>
            rw [show ({ s with
                tags := s.tags ++ [{ id := s.next_tag_id, name := n }],
                next_tag_id := s.next_tag_id + 1,
                card_tags := s.card_tags ++ [(cid, s.next_tag_id)] } :
              Store).tags =
              s.tags ++ [{ id := s.next_tag_id, name := n }] from rfl]
            rw [find?_append_left hfs]
      have hltn : linkedTagNames
          { s with tags := s.tags ++ [{ id := s.next_tag_id, name := n }],
                   next_tag_id := s.next_tag_id + 1,
                   card_tags := s.card_tags ++ [(cid, s.next_tag_id)] } cid =
          linkedTagNames s cid ++ [n] := by
        unfold linkedTagNames
        rw [hlf, List.filterMap_append]
        rw [List.filterMap_congr htnold]
        simp [htnnew]
      have hnidnot : s.next_tag_id ∉ linksFor s cid := by
        intro h
        rcases hvalid s.next_tag_id h with ⟨t, htm, hteq⟩
        exact absurd (hteq ▸ hbound t htm) (lt_irrefl _)
      refine ⟨⟨?_, ?_, ?_, ?_, ?_⟩, ⟨[{ id := s.next_tag_id, name := n }], rfl⟩,
        ?_⟩
      · rw [show ({ s with
            tags := s.tags ++ [{ id := s.next_tag_id, name := n }],
            next_tag_id := s.next_tag_id + 1,
            card_tags := s.card_tags ++ [(cid, s.next_tag_id)] } :
          Store).tags = s.tags ++ [{ id := s.next_tag_id, name := n }] from rfl]
        rw [List.map_append]
        refine List.Nodup.append hids (by simp) ?_
        intro a ha hb
        simp only [List.map_cons, List.map_nil, List.mem_singleton] at hb
        exact hidnot (hb ▸ ha)
      · rw [show ({ s with
            tags := s.tags ++ [{ id := s.next_tag_id, name := n }],
            next_tag_id := s.next_tag_id + 1,
            card_tags := s.card_tags ++ [(cid, s.next_tag_id)] } :
          Store).tags = s.tags ++ [{ id := s.next_tag_id, name := n }] from rfl]
        rw [List.map_append]
        refine List.Nodup.append hnames (by simp) ?_
        intro a ha hb
        simp only [List.map_cons, List.map_nil, List.mem_singleton] at hb
        exact hnamenot (hb ▸ ha)
      · intro t ht
        rcases List.mem_append.mp ht with h | h
        · exact Nat.lt_succ_of_lt (hbound t h)
        · have : t = { id := s.next_tag_id, name := n } := by simpa using h
          rw [this]
          exact Nat.lt_succ_self _
      · rw [hlf]
        simp [List.nodup_append, hlinks, List.Disjoint]
        intro a ha hae
        exact hnidnot (hae ▸ ha)
      · rw [hlf]
        intro tid htid
        rcases List.mem_append.mp htid with h | h
        · rcases hvalid tid h with ⟨t, htm, hteq⟩
          exact ⟨t, List.mem_append.mpr (Or.inl htm), hteq⟩
        · have : tid = s.next_tag_id := by simpa using h
          exact ⟨{ id := s.next_tag_id, name := n },
            List.mem_append.mpr (Or.inr (by simp)), this.symm⟩
      · intro m
        rw [hltn, List.mem_append]
        constructor
        · rintro (h | h)
          · exact Or.inl h
          · exact Or.inr ⟨h1, by simpa using h⟩
        · rintro (h | ⟨-, rfl⟩)
          · exact Or.inl h
          · exact Or.inr (by simp)

theorem upsert_foldl_spec (cid : Nat) :
    ∀ (ns : List String) (s : Store), TagInv s cid →
      TagInv (ns.foldl (upsertTagStep cid) s) cid ∧
      s.tags <+: (ns.foldl (upsertTagStep cid) s).tags ∧
      (∀ m, m ∈ linkedTagNames (ns.foldl (upsertTagStep cid) s) cid ↔
        (m ∈ linkedTagNames s cid ∨ (m ∈ ns ∧ trimIsEmpty m = false))) := by
  intro ns
  induction ns with
  | nil =>
      intro s hinv
      exact ⟨hinv, List.prefix_refl _, by simp⟩
  | cons n ns ih =>
      intro s hinv
      rw [List.foldl_cons]
      obtain ⟨sinv, spre, smem⟩ := upsertTagStep_spec cid s n hinv
      obtain ⟨finv, fpre, fmem⟩ := ih (upsertTagStep cid s n) sinv
      refine ⟨finv, spre.trans fpre, ?_⟩
      intro m
      rw [fmem m, smem m]
      constructor
      · rintro ((h | ⟨hb, rfl⟩) | ⟨hm, hb⟩)
        · exact Or.inl h
        · exact Or.inr ⟨by simp, hb⟩
        · exact Or.inr ⟨List.mem_cons_of_mem n hm, hb⟩
      · rintro (h | ⟨hm, hb⟩)
        · exact Or.inl (Or.inl h)
        · rcases List.mem_cons.mp hm with rfl | hm2
          · exact Or.inl (Or.inr ⟨hb, rfl⟩)
          · exact Or.inr ⟨hm2, hb⟩

theorem upsert_spec (s : Store) (cid : Nat) (ns : List String)
    (hids : (s.tags.map (fun t => t.id)).Nodup)
    (hnames : (s.tags.map (fun t => t.name)).Nodup)
    (hbound : ∀ t ∈ s.tags, t.id < s.next_tag_id) :
    TagInv (upsert_tags_and_link s cid ns) cid ∧
    s.tags <+: (upsert_tags_and_link s cid ns).tags ∧
    (∀ m, m ∈ linkedTagNames (upsert_tags_and_link s cid ns) cid ↔
      (m ∈ ns ∧ trimIsEmpty m = false)) := by
  have h0 : linksFor
      { s with card_tags := s.card_tags.filter (fun l => !(l.1 == cid)) }
      cid = [] := by
    simp only [linksFor, List.filter_filter]
    rw [List.filter_eq_nil_iff.mpr]
    · rfl
    · intro a _
      simp
  have hinv0 : TagInv
      { s with card_tags := s.card_tags.filter (fun l => !(l.1 == cid)) }
      cid := by
    refine ⟨hids, hnames, hbound, ?_, ?_⟩
    · rw [h0]; exact List.nodup_nil
    · rw [h0]; intro tid htid; cases htid
  have h0n : linkedTagNames
      { s with card_tags := s.card_tags.filter (fun l => !(l.1 == cid)) }
      cid = [] := by
    unfold linkedTagNames
    rw [h0]
    rfl
  obtain ⟨finv, fpre, fmem⟩ :=
    upsert_foldl_spec cid ns
      { s with card_tags := s.card_tags.filter (fun l => !(l.1 == cid)) } hinv0
  refine ⟨finv, fpre, ?_⟩
  intro m
  unfold upsert_tags_and_link
  rw [fmem m, h0n]
  simp

/-- The tags shown by `get` after a `upsert_tags_and_link` run are exactly the
non-blank input names, deduplicated and sorted alphabetically. -/
theorem upsert_tags_sorted (s : Store) (cid : Nat) (ns : List String)
    (hids : (s.tags.map (fun t => t.id)).Nodup)
    (hnames : (s.tags.map (fun t => t.name)).Nodup)
    (hbound : ∀ t ∈ s.tags, t.id < s.next_tag_id) :
    sortByRel (fun a b => decide (a ≤ b))
      (linkedTagNames (upsert_tags_and_link s cid ns) cid) = specTags ns := by
  obtain ⟨⟨hids2, hnames2, _, hlinks2, _⟩, _, hmem⟩ :=
    upsert_spec s cid ns hids hnames hbound
  have hnd : (linkedTagNames (upsert_tags_and_link s cid ns) cid).Nodup :=
    linkedTagNames_nodup _ _ hids2 hnames2 hlinks2
  have hnd2 : ((ns.filter (fun t => trimIsEmpty t = false)).dedup).Nodup :=
    List.nodup_dedup _
  have hperm : (linkedTagNames (upsert_tags_and_link s cid ns) cid).Perm
      ((ns.filter (fun t => trimIsEmpty t = false)).dedup) := by
    rw [List.perm_ext_iff_of_nodup hnd hnd2]
    intro a
    rw [hmem a, List.mem_dedup, List.mem_filter]
    simp
  unfold specTags
  exact sortByRel_eq_of_perm _ strLe_anti strLe_total strLe_trans hperm

/-! ## Shapes of the remaining store operations -/

theorem update_card_notfound (s : Store) (id : Nat) (input : CardInput)
    (now : Nat) (h : ∀ r ∈ s.cards, r.id ≠ id) :
    update_card s id input now = (s, false) := by
  have hany : (s.cards.any fun r => r.id == id) = false :=
    List.any_eq_false.mpr (by intro x hx; simp [h x hx])
  have hmap : s.cards.map (scalarUpdate input now id) = s.cards :=
    (List.map_congr_left fun a ha => by
      unfold scalarUpdate
      exact if_neg (h a ha)).trans (List.map_id _)
  unfold update_card
  rw [hany]
  simp [hmap]

theorem delete_card_found {s : Store} {id : Nat} {r : CardRow}
    (hfind : s.cards.find? (fun c => c.id == id) = some r) :
    delete_card s id =
      ({ s with cards := s.cards.filter (fun c => !(c.id == id))
                card_phones := s.card_phones.filter (fun p => !(p.card_id == id))
                card_emails := s.card_emails.filter (fun e => !(e.card_id == id))
                card_addresses :=
                  s.card_addresses.filter (fun a => !(a.card_id == id))
                card_tags := s.card_tags.filter (fun l => !(l.1 == id)) },
       some r.photo_path) := by
  have hpred : (r.id == id) = true :=
    @List.find?_some CardRow (fun c => c.id == id) r s.cards hfind
  have hany : (s.cards.any fun c => c.id == id) = true := by
    rw [List.any_eq_true]
    exact ⟨r, List.mem_of_find?_eq_some hfind, hpred⟩
  unfold delete_card
  rw [hfind, hany]
  simp

theorem delete_card_snd_none {s : Store} {id : Nat}
    (hany : (s.cards.any fun c => c.id == id) = false) :
    (delete_card s id).2 = none := by
  unfold delete_card
  rw [hany]
  simp

theorem fetch_none {s : Store} {id : Nat}
    (h : s.cards.find? (fun c => c.id == id) = none) :
    fetch_card_by_id s id = none := by
  unfold fetch_card_by_id
  rw [h]
  rfl

theorem delete_card_absent (s : Store) (id : Nat) (hwf : s.WF)
    (h : ∀ c ∈ s.cards, c.id ≠ id) : delete_card s id = (s, none) := by
  obtain ⟨hc1, hc2, hp1, hp2, he1, he2, ha1, ha2, ht1, ht2, ht3, hct1, hct2⟩ :=
    hwf
  have hidnot : ∀ n, n ∈ s.cards.map (fun c => c.id) → n ≠ id := by
    intro n hn
    rcases List.mem_map.mp hn with ⟨c, hc, rfl⟩
    exact h c hc
  have hany : (s.cards.any fun r => r.id == id) = false :=
    List.any_eq_false.mpr (by intro x hx; simp [h x hx])
  have hfind : s.cards.find? (fun r => r.id == id) = none :=
    List.find?_eq_none.mpr (by intro x hx; simp [h x hx])
  have e1 : s.cards.filter (fun r => !(r.id == id)) = s.cards :=
    List.filter_eq_self.mpr (by intro a ha; simp [h a ha])
  have e2 : s.card_phones.filter (fun p => !(p.card_id == id)) =
      s.card_phones :=
    List.filter_eq_self.mpr
      (by intro a ha; simp [hidnot a.card_id (hp2 a ha).2])
  have e3 : s.card_emails.filter (fun e => !(e.card_id == id)) =
      s.card_emails :=
    List.filter_eq_self.mpr
      (by intro a ha; simp [hidnot a.card_id (he2 a ha).2])
  have e4 : s.card_addresses.filter (fun a => !(a.card_id == id)) =
      s.card_addresses :=
    List.filter_eq_self.mpr
      (by intro a ha; simp [hidnot a.card_id (ha2 a ha).2])
  have e5 : s.card_tags.filter (fun l => !(l.1 == id)) = s.card_tags :=
    List.filter_eq_self.mpr
      (by intro a ha; simp [hidnot a.1 (hct2 a ha).1])
  unfold delete_card
  rw [hfind, hany]
  simp only [Option.map_none', Bool.false_eq_true, if_false]
  rw [e1, e2, e3, e4, e5]

theorem upsert_foldl_filter_blank (cid : Nat) :
    ∀ (ns : List String) (s0 : Store),
      ns.foldl (upsertTagStep cid) s0 =
        (ns.filter (fun t => trimIsEmpty t = false)).foldl
          (upsertTagStep cid) s0 := by
  intro ns
  induction ns with
  | nil => intro s0; rfl
  | cons n ns ih =>
      intro s0
      by_cases h : trimIsEmpty n = true
      · rw [List.foldl_cons, upsertTagStep_blank cid h]
        rw [show (n :: ns).filter (fun t => trimIsEmpty t = false) =
          ns.filter (fun t => trimIsEmpty t = false) by simp [List.filter, h]]
        exact ih s0
      · replace h : trimIsEmpty n = false := by simpa using h
        rw [List.foldl_cons]
        rw [show (n :: ns).filter (fun t => trimIsEmpty t = false) =
          n :: ns.filter (fun t => trimIsEmpty t = false) by
            simp [List.filter, h]]
        rw [List.foldl_cons]
        exact ih _

/-! ## Shapes of `create_card` and `update_card` -/

theorem create_card_id (s : Store) (input : CardInput) (now : Nat) :
    (create_card s input now).2 = s.next_card_id := rfl

theorem create_card_state (s : Store) (input : CardInput) (now : Nat) :
    (create_card s input now).1 =
      upsert_tags_and_link
        { s with cards := s.cards ++ [newCardRow s input now]
                 next_card_id := s.next_card_id + 1
                 card_phones := s.card_phones ++
                   phoneRowsFrom s.next_card_id s.next_phone_id input.phones
                 next_phone_id := s.next_phone_id + input.phones.length
                 card_emails := s.card_emails ++
                   emailRowsFrom s.next_card_id s.next_email_id input.emails
                 next_email_id := s.next_email_id + input.emails.length
                 card_addresses := s.card_addresses ++
                   addressRowsFrom s.next_card_id s.next_address_id
                     input.addresses
                 next_address_id :=
                   s.next_address_id + input.addresses.length }
        s.next_card_id input.tags := by
  unfold create_card
  dsimp only
  rw [phones_foldl, emails_foldl, addresses_foldl]

theorem update_card_state (s : Store) (id : Nat) (input : CardInput)
    (now : Nat) (h : (s.cards.any fun r => r.id == id) = true) :
    update_card s id input now =
      (upsert_tags_and_link
        { s with
          cards := s.cards.map (scalarUpdate input now id)
          card_phones :=
            s.card_phones.filter (fun p => !(p.card_id == id)) ++
              phoneRowsFrom id s.next_phone_id input.phones
          next_phone_id := s.next_phone_id + input.phones.length
          card_emails :=
            s.card_emails.filter (fun e => !(e.card_id == id)) ++
              emailRowsFrom id s.next_email_id input.emails
          next_email_id := s.next_email_id + input.emails.length
          card_addresses :=
            s.card_addresses.filter (fun a => !(a.card_id == id)) ++
              addressRowsFrom id s.next_address_id input.addresses
          next_address_id := s.next_address_id + input.addresses.length }
        id input.tags, true) := by
  unfold update_card
  dsimp only
  rw [if_pos h]
  rw [phones_foldl, emails_foldl, addresses_foldl]

/-! ## Hydration helpers -/

theorem hydrate_phones (s : Store) (id : Nat) (r : CardRow) :
    (hydrate s id r).phones =
      (sortByRel (fun a b => decide (a.id ≤ b.id))
        (s.card_phones.filter (fun p => p.card_id == id))).map
        (fun p => { id := p.id, label := p.label, number := p.number }) := rfl

theorem hydrate_emails (s : Store) (id : Nat) (r : CardRow) :
    (hydrate s id r).emails =
      (sortByRel (fun a b => decide (a.id ≤ b.id))
        (s.card_emails.filter (fun e => e.card_id == id))).map
        (fun e => { id := e.id, label := e.label, address := e.address }) :=
  rfl

theorem hydrate_addresses (s : Store) (id : Nat) (r : CardRow) :
    (hydrate s id r).addresses =
      (sortByRel (fun a b => decide (a.id ≤ b.id))
        (s.card_addresses.filter (fun a => a.card_id == id))).map
        (fun a => { id := a.id, label := a.label, street := a.street,
                    city := a.city, country := a.country,
                    postal := a.postal }) := rfl

theorem hydrate_tags (s : Store) (id : Nat) (r : CardRow) :
    (hydrate s id r).tags =
      sortByRel (fun a b => decide (a ≤ b)) (linkedTagNames s id) := rfl

theorem filter_append_new_phones {old : List PhoneRow} {cid n : Nat}
    {ps : List CardFormPhoneInput} (hold : ∀ p ∈ old, p.card_id ≠ cid) :
    (old ++ phoneRowsFrom cid n ps).filter (fun p => p.card_id == cid) =
      phoneRowsFrom cid n ps := by
  rw [List.filter_append,
    List.filter_eq_nil_iff.mpr (by intro a ha; simp [hold a ha]),
    List.filter_eq_self.mpr
      (by intro a ha; simp [phoneRowsFrom_card_id cid ps n a ha]),
    List.nil_append]

theorem filter_append_new_emails {old : List EmailRow} {cid n : Nat}
    {es : List CardFormEmailInput} (hold : ∀ e ∈ old, e.card_id ≠ cid) :
    (old ++ emailRowsFrom cid n es).filter (fun e => e.card_id == cid) =
      emailRowsFrom cid n es := by
  rw [List.filter_append,
    List.filter_eq_nil_iff.mpr (by intro a ha; simp [hold a ha]),
    List.filter_eq_self.mpr
      (by intro a ha; simp [emailRowsFrom_card_id cid es n a ha]),
    List.nil_append]

theorem filter_append_new_addresses {old : List AddressRow} {cid n : Nat}
    {l : List CardFormAddressInput} (hold : ∀ a ∈ old, a.card_id ≠ cid) :
    (old ++ addressRowsFrom cid n l).filter (fun a => a.card_id == cid) =
      addressRowsFrom cid n l := by
  rw [List.filter_append,
    List.filter_eq_nil_iff.mpr (by intro a ha; simp [hold a ha]),
    List.filter_eq_self.mpr
      (by intro a ha; simp [addressRowsFrom_card_id cid l n a ha]),
    List.nil_append]

theorem sortByRel_phoneRows (cid n : Nat) (ps : List CardFormPhoneInput) :
    sortByRel (fun a b => decide (a.id ≤ b.id)) (phoneRowsFrom cid n ps) =
      phoneRowsFrom cid n ps :=
  sortByRel_eq_self _ _ ((phoneRowsFrom_pairwise cid ps n).imp
    (fun h => decide_eq_true_iff.mpr (Nat.le_of_lt h)))

theorem sortByRel_emailRows (cid n : Nat) (es : List CardFormEmailInput) :
    sortByRel (fun a b => decide (a.id ≤ b.id)) (emailRowsFrom cid n es) =
      emailRowsFrom cid n es :=
  sortByRel_eq_self _ _ ((emailRowsFrom_pairwise cid es n).imp
    (fun h => decide_eq_true_iff.mpr (Nat.le_of_lt h)))

theorem sortByRel_addressRows (cid n : Nat)
    (l : List CardFormAddressInput) :
    sortByRel (fun a b => decide (a.id ≤ b.id)) (addressRowsFrom cid n l) =
      addressRowsFrom cid n l :=
  sortByRel_eq_self _ _ ((addressRowsFrom_pairwise cid l n).imp
    (fun h => decide_eq_true_iff.mpr (Nat.le_of_lt h)))

/-! ## Claim theorems -/

/-- Claim C1: for every well-formed store and every input with a non-blank
name, `create_card` followed by `get` of the returned id yields a card whose
scalar fields and phone/email/address collections equal the input exactly
(child ids and timestamps aside), and whose tag list is the input's
non-blank tag names, duplicates collapsed, sorted alphabetically. -/
theorem create_then_get (s : Store) (input : CardInput) (now : Nat)
    (hwf : s.WF) (hname : trimIsEmpty input.name = false) :
    ∃ c : Card,
      fetch_card_by_id (create_card s input now).1
        (create_card s input now).2 = some c ∧
      c.name = input.name ∧ c.title = input.title ∧
      c.company = input.company ∧ c.website = input.website ∧
      c.notes = input.notes ∧
      c.phones.map (fun p => (p.label, p.number)) =
        input.phones.map (fun p => (p.label, p.number)) ∧
      c.emails.map (fun e => (e.label, e.address)) =
        input.emails.map (fun e => (e.label, e.address)) ∧
      c.addresses.map
        (fun a => (a.label, a.street, a.city, a.country, a.postal)) =
        input.addresses.map
          (fun a => (a.label, a.street, a.city, a.country, a.postal)) ∧
      c.tags = specTags input.tags := by
  obtain ⟨hc1, hc2, hp1, hp2, he1, he2, ha1, ha2, ht1, ht2, ht3, hct1, hct2⟩ :=
    hwf
  have hstate := create_card_state s input now
  set s4 : Store :=
    { s with cards := s.cards ++ [newCardRow s input now]
             next_card_id := s.next_card_id + 1
             card_phones := s.card_phones ++
               phoneRowsFrom s.next_card_id s.next_phone_id input.phones
             next_phone_id := s.next_phone_id + input.phones.length
             card_emails := s.card_emails ++
               emailRowsFrom s.next_card_id s.next_email_id input.emails
             next_email_id := s.next_email_id + input.emails.length
             card_addresses := s.card_addresses ++
               addressRowsFrom s.next_card_id s.next_address_id
                 input.addresses
             next_address_id := s.next_address_id + input.addresses.length }
    with hs4
  obtain ⟨hu1, hu2, hu3, hu4, hu5, hu6, hu7, hu8⟩ :=
    upsert_fields s4 s.next_card_id input.tags
  have hnotold : ∀ c ∈ s.cards, c.id ≠ s.next_card_id := by
    intro c hc
    exact Nat.ne_of_lt (hc2 c hc)
  have hfind : (upsert_tags_and_link s4 s.next_card_id input.tags).cards.find?
      (fun c => c.id == s.next_card_id) = some (newCardRow s input now) := by
    rw [hu1]
    rw [show s4.cards = s.cards ++ [newCardRow s input now] from rfl]
    rw [find?_append_false (by intro x hx; simp [hnotold x hx])]
    simp [List.find?_cons, newCardRow]
  have hfetch : fetch_card_by_id (create_card s input now).1
      (create_card s input now).2 =
      some (hydrate (upsert_tags_and_link s4 s.next_card_id input.tags)
        s.next_card_id (newCardRow s input now)) := by
    rw [create_card_id, hstate]
    unfold fetch_card_by_id
    rw [hfind]
    rfl
  have hpold : ∀ p ∈ s.card_phones, p.card_id ≠ s.next_card_id := by
    intro p hp
    rcases List.mem_map.mp (hp2 p hp).2 with ⟨c, hcmem, hceq⟩
    rw [← hceq]
    exact Nat.ne_of_lt (hc2 c hcmem)
  have heold : ∀ e ∈ s.card_emails, e.card_id ≠ s.next_card_id := by
    intro e he
    rcases List.mem_map.mp (he2 e he).2 with ⟨c, hcmem, hceq⟩
    rw [← hceq]
    exact Nat.ne_of_lt (hc2 c hcmem)
  have haold : ∀ a ∈ s.card_addresses, a.card_id ≠ s.next_card_id := by
    intro a ha
    rcases List.mem_map.mp (ha2 a ha).2 with ⟨c, hcmem, hceq⟩
    rw [← hceq]
    exact Nat.ne_of_lt (hc2 c hcmem)
  refine ⟨_, hfetch, rfl, rfl, rfl, rfl, rfl, ?_, ?_, ?_, ?_⟩
  · rw [hydrate_phones, hu2]
    rw [show s4.card_phones = s.card_phones ++
      phoneRowsFrom s.next_card_id s.next_phone_id input.phones from rfl]
    rw [filter_append_new_phones hpold, sortByRel_phoneRows, List.map_map]
    exact phoneRowsFrom_pairs s.next_card_id input.phones s.next_phone_id
  · rw [hydrate_emails, hu3]
    rw [show s4.card_emails = s.card_emails ++
      emailRowsFrom s.next_card_id s.next_email_id input.emails from rfl]
    rw [filter_append_new_emails heold, sortByRel_emailRows, List.map_map]
    exact emailRowsFrom_pairs s.next_card_id input.emails s.next_email_id
  · rw [hydrate_addresses, hu4]
    rw [show s4.card_addresses = s.card_addresses ++
      addressRowsFrom s.next_card_id s.next_address_id input.addresses
      from rfl]
    rw [filter_append_new_addresses haold, sortByRel_addressRows,
      List.map_map]
    exact addressRowsFrom_pairs s.next_card_id input.addresses
      s.next_address_id
  · rw [hydrate_tags]
    exact upsert_tags_sorted s4 s.next_card_id input.tags ht1 ht2 ht3

/-- Witness for C1 on the empty store and the sample input. -/
theorem create_then_get_witness :
    initStore.WF ∧ trimIsEmpty inputA.name = false ∧
    ∃ c : Card,
      fetch_card_by_id (create_card initStore inputA 5).1
        (create_card initStore inputA 5).2 = some c ∧
      c.name = inputA.name ∧ c.title = inputA.title ∧
      c.company = inputA.company ∧ c.website = inputA.website ∧
      c.notes = inputA.notes ∧
      c.phones.map (fun p => (p.label, p.number)) =
        inputA.phones.map (fun p => (p.label, p.number)) ∧
      c.emails.map (fun e => (e.label, e.address)) =
        inputA.emails.map (fun e => (e.label, e.address)) ∧
      c.addresses.map
        (fun a => (a.label, a.street, a.city, a.country, a.postal)) =
        inputA.addresses.map
          (fun a => (a.label, a.street, a.city, a.country, a.postal)) ∧
      c.tags = specTags inputA.tags :=
  ⟨by decide, by decide, create_then_get initStore inputA 5 (by decide)
    (by decide)⟩

theorem fetch_mem_row {s : Store}
    (hnd : (s.cards.map (fun c => c.id)).Nodup) {r : CardRow}
    (hr : r ∈ s.cards) :
    fetch_card_by_id s r.id = some (hydrate s r.id r) := by
  unfold fetch_card_by_id
  rw [find?_beq_of_mem_nodup hnd hr]
  rfl

theorem filterMap_fetch (s : Store)
    (hnd : (s.cards.map (fun c => c.id)).Nodup) :
    ∀ l : List CardRow, (∀ r ∈ l, r ∈ s.cards) →
      (l.map (fun c => c.id)).filterMap (fetch_card_by_id s) =
        l.map (fun r => hydrate s r.id r) := by
  intro l
  induction l with
  | nil => intro _; rfl
  | cons r rs ih =>
      intro hmem
      rw [List.map_cons, List.map_cons, List.filterMap_cons]
      rw [fetch_mem_row hnd (hmem r (by simp))]
      rw [ih (fun x hx => hmem x (List.mem_cons_of_mem r hx))]

/-- Claim C5: for every store state and every combination of optional `q` and
`tag`, the list result mentions no card id twice and is ordered by
`updated_at` descending. -/
theorem list_cards_nodup_sorted (s : Store) (q tag : Option String)
    (hwf : s.WF) :
    ((list_cards s q tag).map (fun c => c.id)).Nodup ∧
    (list_cards s q tag).Pairwise
      (fun a b => b.updated_at ≤ a.updated_at) := by
  obtain ⟨hc1, hc2, hp1, hp2, he1, he2, ha1, ha2, ht1, ht2, ht3, hct1, hct2⟩ :=
    hwf
  have htot : ∀ a b : CardRow,
      (decide (b.updated_at ≤ a.updated_at)) = true ∨
      (decide (a.updated_at ≤ b.updated_at)) = true := by
    intro a b
    rcases Nat.le_total b.updated_at a.updated_at with h | h
    · exact Or.inl (decide_eq_true_iff.mpr h)
    · exact Or.inr (decide_eq_true_iff.mpr h)
  have htrans : ∀ a b c : CardRow,
      decide (b.updated_at ≤ a.updated_at) = true →
      decide (c.updated_at ≤ b.updated_at) = true →
      decide (c.updated_at ≤ a.updated_at) = true := by
    intro a b c h1 h2
    exact decide_eq_true_iff.mpr
      (Nat.le_trans (decide_eq_true_iff.mp h2) (decide_eq_true_iff.mp h1))
  have hkey : ∀ base : List CardRow, base.Sublist s.cards →
      ((((sortByRel (fun a b => decide (b.updated_at ≤ a.updated_at))
          base).map (fun c => c.id)).filterMap (fetch_card_by_id s)).map
          (fun c => c.id)).Nodup ∧
      (((sortByRel (fun a b => decide (b.updated_at ≤ a.updated_at))
          base).map (fun c => c.id)).filterMap
          (fetch_card_by_id s)).Pairwise
        (fun a b => b.updated_at ≤ a.updated_at) := by
    intro base hsub
    have hmem : ∀ r ∈ sortByRel
        (fun a b => decide (b.updated_at ≤ a.updated_at)) base,
        r ∈ s.cards := by
      intro r hr
      exact hsub.subset ((mem_sortByRel _ base r).mp hr)
    rw [filterMap_fetch s hc1 _ hmem]
    constructor
    · rw [List.map_map]
      have heq : (sortByRel (fun a b => decide (b.updated_at ≤ a.updated_at))
          base).map ((fun c => c.id) ∘ (fun r => hydrate s r.id r)) =
          (sortByRel (fun a b => decide (b.updated_at ≤ a.updated_at))
            base).map (fun r => r.id) := rfl
      rw [heq]
      have hbnd : (base.map (fun r => r.id)).Nodup :=
        List.Nodup.sublist (hsub.map _) hc1
      exact ((sortByRel_perm _ base).map (fun r => r.id)).symm.nodup hbnd
    · exact List.Pairwise.map _
        (fun a b hab => decide_eq_true_iff.mp hab)
        (sortByRel_pairwise _ htot htrans base)
  cases q with
  | none =>
      cases tag with
      | none => exact hkey s.cards (List.Sublist.refl _)
      | some tf => exact hkey _ (List.filter_sublist _)
  | some search =>
      cases tag with
      | none => exact hkey _ (List.filter_sublist _)
      | some tf => exact hkey _ (List.filter_sublist _)

/-- Witness for C5 on the sample store with a query and a tag filter. -/
theorem list_cards_nodup_sorted_witness :
    storeA.WF ∧
    (((list_cards storeA (some "a") (some "b")).map (fun c => c.id)).Nodup ∧
    (list_cards storeA (some "a") (some "b")).Pairwise
      (fun a b => b.updated_at ≤ a.updated_at)) :=
  ⟨by decide, list_cards_nodup_sorted storeA (some "a") (some "b")
    (by decide)⟩

theorem scalarUpdate_id (input : CardInput) (now id : Nat) (r : CardRow) :
    (scalarUpdate input now id r).id = r.id := by
  unfold scalarUpdate
  split <;> rfl

theorem find?_key_eq {l : List CardRow}
    (hnd : (l.map (fun c => c.id)).Nodup) {r : CardRow} (hr : r ∈ l)
    {k : Nat} (hk : r.id = k) :
    l.find? (fun c => c.id == k) = some r := by
  subst hk
  exact find?_beq_of_mem_nodup hnd hr

/-- Claim C2 (amended: the claim's "no tag link present before the update
survives" does not hold for tag links — the link pair for a tag named again
in the new input is present both before and after, see the counterexample —
so that clause is replaced by: the card's tag links after the update are
exactly those derived from the new input): after a successful
`update_card`, `get` shows only child rows derived from the new input, every
post-update child id differs from every pre-update child id of the same
collection, and the tag list equals the new input's non-blank deduplicated
sorted tag names. -/
theorem update_then_get (s : Store) (id : Nat) (input : CardInput)
    (now : Nat) (hwf : s.WF)
    (hex : (s.cards.any fun r => r.id == id) = true) :
    (update_card s id input now).2 = true ∧
    ∃ c₀ c : Card, fetch_card_by_id s id = some c₀ ∧
      fetch_card_by_id (update_card s id input now).1 id = some c ∧
      c.phones.map (fun p => (p.label, p.number)) =
        input.phones.map (fun p => (p.label, p.number)) ∧
      c.emails.map (fun e => (e.label, e.address)) =
        input.emails.map (fun e => (e.label, e.address)) ∧
      c.addresses.map
        (fun a => (a.label, a.street, a.city, a.country, a.postal)) =
        input.addresses.map
          (fun a => (a.label, a.street, a.city, a.country, a.postal)) ∧
      c.tags = specTags input.tags ∧
      (∀ p ∈ c.phones, ∀ p₀ ∈ c₀.phones, p.id ≠ p₀.id) ∧
      (∀ e ∈ c.emails, ∀ e₀ ∈ c₀.emails, e.id ≠ e₀.id) ∧
      (∀ a ∈ c.addresses, ∀ a₀ ∈ c₀.addresses, a.id ≠ a₀.id) := by
  obtain ⟨hc1, hc2, hp1, hp2, he1, he2, ha1, ha2, ht1, ht2, ht3, hct1, hct2⟩ :=
    hwf
  rcases List.any_eq_true.mp hex with ⟨r0, hr0m, hr0p⟩
  have hid0 : r0.id = id := by simpa using hr0p
  have hfetch0 : fetch_card_by_id s id = some (hydrate s id r0) := by
    unfold fetch_card_by_id
    rw [find?_key_eq hc1 hr0m hid0]
    rfl
  have hstate := update_card_state s id input now hex
  set s7 : Store :=
    { s with
      cards := s.cards.map (scalarUpdate input now id)
      card_phones := s.card_phones.filter (fun p => !(p.card_id == id)) ++
        phoneRowsFrom id s.next_phone_id input.phones
      next_phone_id := s.next_phone_id + input.phones.length
      card_emails := s.card_emails.filter (fun e => !(e.card_id == id)) ++
        emailRowsFrom id s.next_email_id input.emails
      next_email_id := s.next_email_id + input.emails.length
      card_addresses :=
        s.card_addresses.filter (fun a => !(a.card_id == id)) ++
          addressRowsFrom id s.next_address_id input.addresses
      next_address_id := s.next_address_id + input.addresses.length }
    with hs7
  obtain ⟨hu1, hu2, hu3, hu4, hu5, hu6, hu7, hu8⟩ :=
    upsert_fields s7 id input.tags
  have hids7 : (s7.cards.map (fun c => c.id)).Nodup := by
    have hcongr : (s.cards.map (scalarUpdate input now id)).map
        (fun c => c.id) = s.cards.map (fun c => c.id) := by
      rw [List.map_map]
      exact List.map_congr_left (fun a _ => scalarUpdate_id input now id a)
    rw [show s7.cards = s.cards.map (scalarUpdate input now id) from rfl,
      hcongr]
    exact hc1
  have hfind7 : (upsert_tags_and_link s7 id input.tags).cards.find?
      (fun c => c.id == id) = some (scalarUpdate input now id r0) := by
    rw [hu1]
    exact find?_key_eq hids7
      (List.mem_map_of_mem (scalarUpdate input now id) hr0m)
      ((scalarUpdate_id input now id r0).trans hid0)
  have hfetch7 : fetch_card_by_id (upsert_tags_and_link s7 id input.tags)
      id = some (hydrate (upsert_tags_and_link s7 id input.tags) id
        (scalarUpdate input now id r0)) := by
    unfold fetch_card_by_id
    rw [hfind7]
    rfl
  have holdp : ∀ p ∈ s.card_phones.filter (fun p => !(p.card_id == id)),
      p.card_id ≠ id := by
    intro p hp
    have h2 := (List.mem_filter.mp hp).2
    simpa using h2
  have holde : ∀ e ∈ s.card_emails.filter (fun e => !(e.card_id == id)),
      e.card_id ≠ id := by
    intro e he
    have h2 := (List.mem_filter.mp he).2
    simpa using h2
  have holda : ∀ a ∈ s.card_addresses.filter (fun a => !(a.card_id == id)),
      a.card_id ≠ id := by
    intro a ha
    have h2 := (List.mem_filter.mp ha).2
    simpa using h2
  have hphones : (hydrate (upsert_tags_and_link s7 id input.tags) id
      (scalarUpdate input now id r0)).phones =
      (phoneRowsFrom id s.next_phone_id input.phones).map
        (fun p => { id := p.id, label := p.label, number := p.number }) := by
    rw [hydrate_phones, hu2]
    rw [show s7.card_phones =
      s.card_phones.filter (fun p => !(p.card_id == id)) ++
        phoneRowsFrom id s.next_phone_id input.phones from rfl]
    rw [filter_append_new_phones holdp, sortByRel_phoneRows]
  have hemails : (hydrate (upsert_tags_and_link s7 id input.tags) id
      (scalarUpdate input now id r0)).emails =
      (emailRowsFrom id s.next_email_id input.emails).map
        (fun e => { id := e.id, label := e.label, address := e.address }) := by
    rw [hydrate_emails, hu3]
    rw [show s7.card_emails =
      s.card_emails.filter (fun e => !(e.card_id == id)) ++
        emailRowsFrom id s.next_email_id input.emails from rfl]
    rw [filter_append_new_emails holde, sortByRel_emailRows]
  have haddresses : (hydrate (upsert_tags_and_link s7 id input.tags) id
      (scalarUpdate input now id r0)).addresses =
      (addressRowsFrom id s.next_address_id input.addresses).map
        (fun a => { id := a.id, label := a.label, street := a.street,
                    city := a.city, country := a.country,
                    postal := a.postal }) := by
    rw [hydrate_addresses, hu4]
    rw [show s7.card_addresses =
      s.card_addresses.filter (fun a => !(a.card_id == id)) ++
        addressRowsFrom id s.next_address_id input.addresses from rfl]
    rw [filter_append_new_addresses holda, sortByRel_addressRows]
  refine ⟨by rw [hstate], hydrate s id r0,
    hydrate (upsert_tags_and_link s7 id input.tags) id
      (scalarUpdate input now id r0),
    hfetch0, by rw [hstate]; exact hfetch7, ?_, ?_, ?_, ?_, ?_, ?_, ?_⟩
  · rw [hphones, List.map_map]
    exact phoneRowsFrom_pairs id input.phones s.next_phone_id
  · rw [hemails, List.map_map]
    exact emailRowsFrom_pairs id input.emails s.next_email_id
  · rw [haddresses, List.map_map]
    exact addressRowsFrom_pairs id input.addresses s.next_address_id
  · rw [hydrate_tags]
    exact upsert_tags_sorted s7 id input.tags ht1 ht2 ht3
  · intro p hp p₀ hp₀
    rw [hphones] at hp
    rcases List.mem_map.mp hp with ⟨row, hrow, hrow2⟩
    have hge : s.next_phone_id ≤ row.id :=
      phoneRowsFrom_id_ge id input.phones s.next_phone_id row hrow
    rw [hydrate_phones] at hp₀
    rcases List.mem_map.mp hp₀ with ⟨row₀, hrow₀, hrow₀2⟩
    have hrow₀3 : row₀ ∈ s.card_phones :=
      (List.mem_filter.mp ((mem_sortByRel _ _ row₀).mp hrow₀)).1
    have hlt : row₀.id < s.next_phone_id := (hp2 row₀ hrow₀3).1
    rw [← hrow2, ← hrow₀2]
    intro heq
    simp only at heq
    omega
  · intro e he e₀ he₀
    rw [hemails] at he
    rcases List.mem_map.mp he with ⟨row, hrow, hrow2⟩
    have hge : s.next_email_id ≤ row.id :=
      emailRowsFrom_id_ge id input.emails s.next_email_id row hrow
    rw [hydrate_emails] at he₀
    rcases List.mem_map.mp he₀ with ⟨row₀, hrow₀, hrow₀2⟩
    have hrow₀3 : row₀ ∈ s.card_emails :=
      (List.mem_filter.mp ((mem_sortByRel _ _ row₀).mp hrow₀)).1
    have hlt : row₀.id < s.next_email_id := (he2 row₀ hrow₀3).1
    rw [← hrow2, ← hrow₀2]
    intro heq
    simp only at heq
    omega
  · intro a ha a₀ ha₀
    rw [haddresses] at ha
    rcases List.mem_map.mp ha with ⟨row, hrow, hrow2⟩
    have hge : s.next_address_id ≤ row.id :=
      addressRowsFrom_id_ge id input.addresses s.next_address_id row hrow
    rw [hydrate_addresses] at ha₀
    rcases List.mem_map.mp ha₀ with ⟨row₀, hrow₀, hrow₀2⟩
    have hrow₀3 : row₀ ∈ s.card_addresses :=
      (List.mem_filter.mp ((mem_sortByRel _ _ row₀).mp hrow₀)).1
    have hlt : row₀.id < s.next_address_id := (ha2 row₀ hrow₀3).1
    rw [← hrow2, ← hrow₀2]
    intro heq
    simp only at heq
    omega

/-- Counterexample to **C2** as stated: updating card 1 of `storeT` with an
input naming the same tag `"t"` succeeds, and the tag link `(1, 1)` that was
present before the update is present after it — a tag link from before the
update survives. -/
theorem update_tag_link_survives :
    (1, 1) ∈ storeT.card_tags ∧
    (update_card storeT 1 inputT 1).2 = true ∧
    (1, 1) ∈ (update_card storeT 1 inputT 1).1.card_tags := by decide

/-- Witness for the amended C2: updating card 1 of `storeA` with `inputT`. -/
theorem update_then_get_witness :
    storeA.WF ∧ (storeA.cards.any fun r => r.id == 1) = true ∧
    ((update_card storeA 1 inputT 9).2 = true ∧
    ∃ c₀ c : Card, fetch_card_by_id storeA 1 = some c₀ ∧
      fetch_card_by_id (update_card storeA 1 inputT 9).1 1 = some c ∧
      c.phones.map (fun p => (p.label, p.number)) =
        inputT.phones.map (fun p => (p.label, p.number)) ∧
      c.emails.map (fun e => (e.label, e.address)) =
        inputT.emails.map (fun e => (e.label, e.address)) ∧
      c.addresses.map
        (fun a => (a.label, a.street, a.city, a.country, a.postal)) =
        inputT.addresses.map
          (fun a => (a.label, a.street, a.city, a.country, a.postal)) ∧
      c.tags = specTags inputT.tags ∧
      (∀ p ∈ c.phones, ∀ p₀ ∈ c₀.phones, p.id ≠ p₀.id) ∧
      (∀ e ∈ c.emails, ∀ e₀ ∈ c₀.emails, e.id ≠ e₀.id) ∧
      (∀ a ∈ c.addresses, ∀ a₀ ∈ c₀.addresses, a.id ≠ a₀.id)) :=
  ⟨by decide, by decide, update_then_get storeA 1 inputT 9 (by decide)
    (by decide)⟩

theorem list_cards_mem_core (s : Store)
    (hnd : (s.cards.map (fun c => c.id)).Nodup) (base : List CardRow)
    (hsub : base.Sublist s.cards) (i : Nat) :
    (i ∈ ((((sortByRel (fun a b => decide (b.updated_at ≤ a.updated_at))
        base).map (fun c => c.id)).filterMap (fetch_card_by_id s)).map
        (fun c => c.id)) ↔ ∃ r ∈ base, r.id = i) := by
  have hmem : ∀ r ∈ sortByRel
      (fun a b => decide (b.updated_at ≤ a.updated_at)) base,
      r ∈ s.cards := by
    intro r hr
    exact hsub.subset ((mem_sortByRel _ base r).mp hr)
  rw [filterMap_fetch s hnd _ hmem, List.map_map]
  have heq : (sortByRel (fun a b => decide (b.updated_at ≤ a.updated_at))
      base).map ((fun c => c.id) ∘ (fun r => hydrate s r.id r)) =
      (sortByRel (fun a b => decide (b.updated_at ≤ a.updated_at))
        base).map (fun r => r.id) := rfl
  rw [heq, List.mem_map]
  constructor
  · rintro ⟨r, hr, hid⟩
    exact ⟨r, (mem_sortByRel _ base r).mp hr, hid⟩
  · rintro ⟨r, hr, hid⟩
    exact ⟨r, (mem_sortByRel _ base r).mpr hr, hid⟩

theorem rowHasTag_iff (s : Store) (tf : String) (c : CardRow) :
    rowHasTag s tf c = true ↔ specHasTag s tf c := by
  simp only [rowHasTag, specHasTag, List.any_eq_true, Bool.and_eq_true,
    beq_iff_eq]

theorem rowMatchesQ_iff (s : Store) (q : String) (c : CardRow)
    (hq : ∀ ch ∈ q.data, ch ≠ '%' ∧ ch ≠ '_') :
    rowMatchesQ s q c = true ↔ specMatchesQ s q c := by
  simp only [rowMatchesQ, specMatchesQ, Bool.or_eq_true, List.any_eq_true,
    Bool.and_eq_true, beq_iff_eq, likeContains_iff _ _ hq]
  exact or_assoc

/-- Claim C3 (amended: the free-text query must not contain the SQL LIKE
wildcards `%` or `_` — `list_cards` interpolates it into a LIKE pattern, so
those characters keep their wildcard meaning instead of matching literally):
with only such a `q`, the listing returns exactly the cards whose name,
company, or some linked email contains `q` as a case-insensitive substring;
with only a tag it returns exactly the cards linked to a tag of exactly
that name; with both, the intersection; with neither, all cards. -/
theorem list_cards_filter_semantics (s : Store) (q tf : String)
    (hwf : s.WF) (hq : ∀ ch ∈ q.data, ch ≠ '%' ∧ ch ≠ '_') :
    (∀ i, i ∈ (list_cards s (some q) none).map (fun c => c.id) ↔
      ∃ r ∈ s.cards, r.id = i ∧ specMatchesQ s q r) ∧
    (∀ i, i ∈ (list_cards s none (some tf)).map (fun c => c.id) ↔
      ∃ r ∈ s.cards, r.id = i ∧ specHasTag s tf r) ∧
    (∀ i, i ∈ (list_cards s (some q) (some tf)).map (fun c => c.id) ↔
      ∃ r ∈ s.cards, r.id = i ∧ specHasTag s tf r ∧ specMatchesQ s q r) ∧
    (∀ i, i ∈ (list_cards s none none).map (fun c => c.id) ↔
      ∃ r ∈ s.cards, r.id = i) := by
  obtain ⟨hc1, hc2, hp1, hp2, he1, he2, ha1, ha2, ht1, ht2, ht3, hct1, hct2⟩ :=
    hwf
  refine ⟨?_, ?_, ?_, ?_⟩
  · intro i
    rw [show (list_cards s (some q) none).map (fun c => c.id) =
      ((((sortByRel (fun a b => decide (b.updated_at ≤ a.updated_at))
        (s.cards.filter (fun c => rowMatchesQ s q c))).map
        (fun c => c.id)).filterMap (fetch_card_by_id s)).map
        (fun c => c.id)) from rfl]
    rw [list_cards_mem_core s hc1 _ (List.filter_sublist _) i]
    constructor
    · rintro ⟨r, hr, hid⟩
      rcases List.mem_filter.mp hr with ⟨hrm, hpred⟩
      exact ⟨r, hrm, hid, (rowMatchesQ_iff s q r hq).mp hpred⟩
    · rintro ⟨r, hrm, hid, hspec⟩
      exact ⟨r, List.mem_filter.mpr
        ⟨hrm, (rowMatchesQ_iff s q r hq).mpr hspec⟩, hid⟩
  · intro i
    rw [show (list_cards s none (some tf)).map (fun c => c.id) =
      ((((sortByRel (fun a b => decide (b.updated_at ≤ a.updated_at))
        (s.cards.filter (fun c => rowHasTag s tf c))).map
        (fun c => c.id)).filterMap (fetch_card_by_id s)).map
        (fun c => c.id)) from rfl]
    rw [list_cards_mem_core s hc1 _ (List.filter_sublist _) i]
    constructor
    · rintro ⟨r, hr, hid⟩
      rcases List.mem_filter.mp hr with ⟨hrm, hpred⟩
      exact ⟨r, hrm, hid, (rowHasTag_iff s tf r).mp hpred⟩
    · rintro ⟨r, hrm, hid, hspec⟩
      exact ⟨r, List.mem_filter.mpr
        ⟨hrm, (rowHasTag_iff s tf r).mpr hspec⟩, hid⟩
  · intro i
    rw [show (list_cards s (some q) (some tf)).map (fun c => c.id) =
      ((((sortByRel (fun a b => decide (b.updated_at ≤ a.updated_at))
        (s.cards.filter (fun c => rowHasTag s tf c && rowMatchesQ s q c))).map
        (fun c => c.id)).filterMap (fetch_card_by_id s)).map
        (fun c => c.id)) from rfl]
    rw [list_cards_mem_core s hc1 _ (List.filter_sublist _) i]
    constructor
    · rintro ⟨r, hr, hid⟩
      rcases List.mem_filter.mp hr with ⟨hrm, hpred⟩
      rw [Bool.and_eq_true] at hpred
      exact ⟨r, hrm, hid, (rowHasTag_iff s tf r).mp hpred.1,
        (rowMatchesQ_iff s q r hq).mp hpred.2⟩
    · rintro ⟨r, hrm, hid, hs1, hs2⟩
      refine ⟨r, List.mem_filter.mpr ⟨hrm, ?_⟩, hid⟩
      rw [Bool.and_eq_true]
      exact ⟨(rowHasTag_iff s tf r).mpr hs1,
        (rowMatchesQ_iff s q r hq).mpr hs2⟩
  · intro i
    rw [show (list_cards s none none).map (fun c => c.id) =
      ((((sortByRel (fun a b => decide (b.updated_at ≤ a.updated_at))
        s.cards).map (fun c => c.id)).filterMap (fetch_card_by_id s)).map
        (fun c => c.id)) from rfl]
    exact list_cards_mem_core s hc1 _ (List.Sublist.refl _) i

/-- Counterexample to **C3** as stated: the query `"%"` is interpolated
into the LIKE pattern, so it matches card 1 of `storeA`, although `"%"` is
not a substring of the card's name, company, or any linked email. -/
theorem list_cards_wildcard_counterexample :
    ((list_cards storeA (some "%") none).map (fun c => c.id) = [1]) ∧
    ¬ (∃ r ∈ storeA.cards, r.id = 1 ∧ specMatchesQ storeA "%" r) := by
  constructor
  · decide
  · unfold specMatchesQ
    decide

/-- Witness for the amended C3 on the sample store with the wildcard-free
query `"ann"` and tag `"a"`. -/
theorem list_cards_filter_semantics_witness :
    storeA.WF ∧ (∀ ch ∈ "ann".data, ch ≠ '%' ∧ ch ≠ '_') ∧
    ((∀ i, i ∈ (list_cards storeA (some "ann") none).map (fun c => c.id) ↔
      ∃ r ∈ storeA.cards, r.id = i ∧ specMatchesQ storeA "ann" r) ∧
    (∀ i, i ∈ (list_cards storeA none (some "a")).map (fun c => c.id) ↔
      ∃ r ∈ storeA.cards, r.id = i ∧ specHasTag storeA "a" r) ∧
    (∀ i, i ∈ (list_cards storeA (some "ann") (some "a")).map
        (fun c => c.id) ↔
      ∃ r ∈ storeA.cards, r.id = i ∧ specHasTag storeA "a" r ∧
        specMatchesQ storeA "ann" r) ∧
    (∀ i, i ∈ (list_cards storeA none none).map (fun c => c.id) ↔
      ∃ r ∈ storeA.cards, r.id = i)) :=
  ⟨by decide, by decide,
   list_cards_filter_semantics storeA "ann" "a" (by decide) (by decide)⟩

/-- Claim C6: `list_tags` has one entry per tag row (zero-count tags
included), alphabetically ordered by name, each count being the number of
distinct cards linked to that tag; and no operation ever removes a tag
row — delete keeps the table intact, create and update only extend it. -/
theorem list_tags_spec (s : Store) (hwf : s.WF) :
    (list_tags s).Pairwise (fun a b => a.name ≤ b.name) ∧
    ((list_tags s).map (fun e => e.name)).Perm
      (s.tags.map (fun t => t.name)) ∧
    (∀ e ∈ list_tags s, ∃ t ∈ s.tags, t.name = e.name ∧
      e.count = (((s.card_tags.filter (fun l => l.2 == t.id)).map
        (fun l => l.1)).dedup).length) ∧
    (∀ id₂, (delete_card s id₂).1.tags = s.tags) ∧
    (∀ input now, s.tags <+: (create_card s input now).1.tags) ∧
    (∀ id₂ input now, s.tags <+: (update_card s id₂ input now).1.tags) := by
  obtain ⟨hc1, hc2, hp1, hp2, he1, he2, ha1, ha2, ht1, ht2, ht3, hct1, hct2⟩ :=
    hwf
  have hnametot : ∀ a b : TagRow,
      (decide (a.name ≤ b.name)) = true ∨
      (decide (b.name ≤ a.name)) = true := by
    intro a b
    rcases le_total a.name b.name with h | h
    · exact Or.inl (decide_eq_true_iff.mpr h)
    · exact Or.inr (decide_eq_true_iff.mpr h)
  have hnametrans : ∀ a b c : TagRow,
      decide (a.name ≤ b.name) = true → decide (b.name ≤ c.name) = true →
      decide (a.name ≤ c.name) = true := by
    intro a b c h1 h2
    exact decide_eq_true_iff.mpr
      (le_trans (decide_eq_true_iff.mp h1) (decide_eq_true_iff.mp h2))
  refine ⟨?_, ?_, ?_, ?_, ?_, ?_⟩
  · unfold list_tags
    exact List.Pairwise.map _ (fun a b hab => decide_eq_true_iff.mp hab)
      (sortByRel_pairwise _ hnametot hnametrans s.tags)
  · unfold list_tags
    rw [List.map_map]
    exact (sortByRel_perm _ s.tags).map (fun t => t.name)
  · intro e he
    unfold list_tags at he
    rcases List.mem_map.mp he with ⟨t, htm, hte⟩
    have htm2 : t ∈ s.tags := (mem_sortByRel _ s.tags t).mp htm
    refine ⟨t, htm2, by rw [← hte], ?_⟩
    have hsubnd : (s.card_tags.filter (fun l => l.2 == t.id)).Nodup :=
      List.Nodup.sublist (List.filter_sublist _) hct1
    have hmapnd : ((s.card_tags.filter (fun l => l.2 == t.id)).map
        (fun l => l.1)).Nodup := by
      apply List.Nodup.map_on ?_ hsubnd
      intro x hx y hy hxy
      have hx2 := (List.mem_filter.mp hx).2
      have hy2 := (List.mem_filter.mp hy).2
      simp only [beq_iff_eq] at hx2 hy2
      exact Prod.ext_iff.mpr ⟨hxy, hx2.trans hy2.symm⟩
    rw [List.dedup_eq_self.mpr hmapnd, List.length_map, ← hte]
  · intro id₂
    unfold delete_card
    dsimp only
    split <;> rfl
  · intro input now
    rw [create_card_state]
    set s4 : Store :=
      { s with cards := s.cards ++ [newCardRow s input now]
               next_card_id := s.next_card_id + 1
               card_phones := s.card_phones ++
                 phoneRowsFrom s.next_card_id s.next_phone_id input.phones
               next_phone_id := s.next_phone_id + input.phones.length
               card_emails := s.card_emails ++
                 emailRowsFrom s.next_card_id s.next_email_id input.emails
               next_email_id := s.next_email_id + input.emails.length
               card_addresses := s.card_addresses ++
                 addressRowsFrom s.next_card_id s.next_address_id
                   input.addresses
               next_address_id := s.next_address_id + input.addresses.length }
      with hs4
    exact (upsert_spec s4 s.next_card_id input.tags ht1 ht2 ht3).2.1
  · intro id₂ input now
    by_cases hany : (s.cards.any fun r => r.id == id₂) = true
    · rw [update_card_state s id₂ input now hany]
      set s7 : Store :=
        { s with
          cards := s.cards.map (scalarUpdate input now id₂)
          card_phones :=
            s.card_phones.filter (fun p => !(p.card_id == id₂)) ++
              phoneRowsFrom id₂ s.next_phone_id input.phones
          next_phone_id := s.next_phone_id + input.phones.length
          card_emails :=
            s.card_emails.filter (fun e => !(e.card_id == id₂)) ++
              emailRowsFrom id₂ s.next_email_id input.emails
          next_email_id := s.next_email_id + input.emails.length
          card_addresses :=
            s.card_addresses.filter (fun a => !(a.card_id == id₂)) ++
              addressRowsFrom id₂ s.next_address_id input.addresses
          next_address_id := s.next_address_id + input.addresses.length }
        with hs7
      exact (upsert_spec s7 id₂ input.tags ht1 ht2 ht3).2.1
    · have h : ∀ r ∈ s.cards, r.id ≠ id₂ := by simpa using hany
      rw [update_card_notfound s id₂ input now h]

/-- Witness for C6 on the sample store. -/
theorem list_tags_spec_witness :
    storeA.WF ∧
    ((list_tags storeA).Pairwise (fun a b => a.name ≤ b.name) ∧
    ((list_tags storeA).map (fun e => e.name)).Perm
      (storeA.tags.map (fun t => t.name)) ∧
    (∀ e ∈ list_tags storeA, ∃ t ∈ storeA.tags, t.name = e.name ∧
      e.count = (((storeA.card_tags.filter (fun l => l.2 == t.id)).map
        (fun l => l.1)).dedup).length) ∧
    (∀ id₂, (delete_card storeA id₂).1.tags = storeA.tags) ∧
    (∀ input now, storeA.tags <+: (create_card storeA input now).1.tags) ∧
    (∀ id₂ input now,
      storeA.tags <+: (update_card storeA id₂ input now).1.tags)) :=
  ⟨by decide, list_tags_spec storeA (by decide)⟩

/-- Claim C10: calling `update_card` with an id for which no card row exists
fails ("card not found") and leaves the entire store unchanged — the scalar
`UPDATE` matches no row and the function bails out before any child-table or
tag statement runs. -/
theorem update_absent_id_noop (s : Store) (id : Nat) (input : CardInput)
    (now : Nat) (h : ∀ r ∈ s.cards, r.id ≠ id) :
    update_card s id input now = (s, false) :=
  update_card_notfound s id input now h

/-- Witness for C10 at a concrete store: updating the missing id 7 returns
the failure flag and the unchanged store. -/
theorem update_absent_id_noop_witness :
    (∀ r ∈ storeA.cards, r.id ≠ 7) ∧
    update_card storeA 7 inputA 9 = (storeA, false) :=
  ⟨by decide, update_absent_id_noop storeA 7 inputA 9 (by decide)⟩

/-- Claim C4: `delete_card` returns the prior `photo_path` (possibly `""`) when
the card existed and `none` otherwise; after a successful delete the card can
no longer be fetched, a second delete reports not-found, and every
phone/email/address row and tag link of the card is removed by the cascade. -/
theorem delete_card_spec (s : Store) (id : Nat) (hwf : s.WF) :
    (∀ r, s.cards.find? (fun c => c.id == id) = some r →
      (delete_card s id).2 = some r.photo_path ∧
      fetch_card_by_id (delete_card s id).1 id = none ∧
      (delete_card (delete_card s id).1 id).2 = none ∧
      (delete_card s id).1.card_phones.filter (fun p => p.card_id == id) = [] ∧
      (delete_card s id).1.card_emails.filter (fun e => e.card_id == id) = [] ∧
      (delete_card s id).1.card_addresses.filter
        (fun a => a.card_id == id) = [] ∧
      (delete_card s id).1.card_tags.filter (fun l => l.1 == id) = []) ∧
    (s.cards.find? (fun c => c.id == id) = none →
      delete_card s id = (s, none)) := by
  constructor
  · intro r hfind
    have hd := delete_card_found hfind
    have hfind1 : (s.cards.filter (fun c => !(c.id == id))).find?
        (fun c => c.id == id) = none := by
      rw [List.find?_eq_none]
      intro x hx
      have hx2 := (List.mem_filter.mp hx).2
      simp at hx2
      simp [hx2]
    have hany1 : ((s.cards.filter (fun c => !(c.id == id))).any
        (fun c => c.id == id)) = false := by
      rw [List.any_eq_false]
      intro x hx
      have hx2 := (List.mem_filter.mp hx).2
      simp at hx2
      simp [hx2]
    have h1cards : (delete_card s id).1.cards =
        s.cards.filter (fun c => !(c.id == id)) := by rw [hd]
    have h1phones : (delete_card s id).1.card_phones =
        s.card_phones.filter (fun p => !(p.card_id == id)) := by rw [hd]
    have h1emails : (delete_card s id).1.card_emails =
        s.card_emails.filter (fun e => !(e.card_id == id)) := by rw [hd]
    have h1addresses : (delete_card s id).1.card_addresses =
        s.card_addresses.filter (fun a => !(a.card_id == id)) := by rw [hd]
    have h1tags : (delete_card s id).1.card_tags =
        s.card_tags.filter (fun l => !(l.1 == id)) := by rw [hd]
    refine ⟨by rw [hd], ?_, ?_, ?_, ?_, ?_, ?_⟩
    · exact fetch_none (by rw [h1cards]; exact hfind1)
    · exact delete_card_snd_none (by rw [h1cards]; exact hany1)
    · rw [h1phones, List.filter_filter]
      simp
    · rw [h1emails, List.filter_filter]
      simp
    · rw [h1addresses, List.filter_filter]
      simp
    · rw [h1tags, List.filter_filter]
      simp
  · intro hfind
    have h : ∀ c ∈ s.cards, c.id ≠ id := by
      intro c hc
      have := (List.find?_eq_none.mp hfind) c hc
      simpa using this
    exact delete_card_absent s id hwf h

/-- Witness for C4 at a concrete store holding card 1. -/
theorem delete_card_spec_witness :
    storeA.WF ∧
    ((∀ r, storeA.cards.find? (fun c => c.id == 1) = some r →
      (delete_card storeA 1).2 = some r.photo_path ∧
      fetch_card_by_id (delete_card storeA 1).1 1 = none ∧
      (delete_card (delete_card storeA 1).1 1).2 = none ∧
      (delete_card storeA 1).1.card_phones.filter
        (fun p => p.card_id == 1) = [] ∧
      (delete_card storeA 1).1.card_emails.filter
        (fun e => e.card_id == 1) = [] ∧
      (delete_card storeA 1).1.card_addresses.filter
        (fun a => a.card_id == 1) = [] ∧
      (delete_card storeA 1).1.card_tags.filter (fun l => l.1 == 1) = []) ∧
    (storeA.cards.find? (fun c => c.id == 1) = none →
      delete_card storeA 1 = (storeA, none))) :=
  ⟨by decide, delete_card_spec storeA 1 (by decide)⟩

/-- Claim C9: the upload-serving route rejects every requested filename that
contains a path separator or a parent-directory token, before reading any
file: for such names the result is Bad Request whatever the filesystem
holds. -/
theorem serve_uploads_rejects (fs : FileSys) (filename : String)
    (h : ('/' ∈ filename.data) ∨ ("..".data <:+: filename.data)) :
    serve_uploads fs filename = ServeResult.badRequest := by
  unfold serve_uploads
  have hcond : (occursIn "..".data filename.data ||
      filename.data.contains '/') = true := by
    rcases h with h | h
    · have h2 : filename.data.contains '/' = true := List.elem_iff.mpr h
      rw [h2, Bool.or_true]
    · have h2 : occursIn "..".data filename.data = true :=
        (occursIn_iff _ _).mpr h
      rw [h2, Bool.true_or]
  rw [if_pos hcond]

/-- Witness for C9: serving `"a/b"` is rejected on an arbitrary filesystem. -/
theorem serve_uploads_rejects_witness :
    ('/' ∈ "a/b".data ∨ ("..".data <:+: "a/b".data)) ∧
    serve_uploads [("a/b", [1])] "a/b" = ServeResult.badRequest :=
  ⟨Or.inl (by decide),
   serve_uploads_rejects [("a/b", [1])] "a/b" (Or.inl (by decide))⟩

/-- Claim C7: `save_photo` validates the (case-insensitively lower-cased)
extension of the uploaded filename against the allow-list `jpg`, `jpeg`,
`png`, `webp` before writing anything: on a disallowed extension it fails
with the validation error and the filesystem is untouched, whatever the
bytes were; on an allowed extension the file is stored as
`card_<id>_<millis>.<ext>` with the lower-cased extension and the returned
reference is `uploads/` plus that name. -/
theorem save_photo_spec (fs : FileSys) (card_id millis : Nat)
    (filename : String) (data : List Nat) :
    (allowedExt (((rustExtension filename).map asciiLower).getD "") = false →
      save_photo fs card_id millis filename data =
        (fs, Except.error "only jpg, png, webp photos are allowed")) ∧
    (allowedExt (((rustExtension filename).map asciiLower).getD "") = true →
      save_photo fs card_id millis filename data =
        (fs ++ [("card_" ++ toString card_id ++ "_" ++ toString millis ++
            "." ++ ((rustExtension filename).map asciiLower).getD "", data)],
         Except.ok ("uploads/" ++ ("card_" ++ toString card_id ++ "_" ++
            toString millis ++ "." ++
            ((rustExtension filename).map asciiLower).getD "")))) := by
  constructor <;> intro h <;> simp [save_photo, h]

/-- Witness for C7: `.exe` is rejected without touching the filesystem and
`.PNG` is stored lower-cased under the derived name. -/
theorem save_photo_spec_witness :
    save_photo [] 7 9 "virus.exe" [1, 2] =
      ([], Except.error "only jpg, png, webp photos are allowed") ∧
    save_photo [] 7 9 "pic.PNG" [1, 2] =
      ([("card_7_9.png", [1, 2])], Except.ok "uploads/card_7_9.png") := by
  constructor
  · exact (save_photo_spec [] 7 9 "virus.exe" [1, 2]).1 (by decide)
  · have h := (save_photo_spec [] 7 9 "pic.PNG" [1, 2]).2 (by decide)
    rw [h]
    decide

/-- Claim C8: the tag-linking loop silently skips blank (whitespace-only) tag
names; each remaining name is matched find-or-create against the existing
tag rows by exact, case-sensitive, untrimmed comparison, so two non-blank
names that differ only by surrounding whitespace yield two distinct tag
rows. -/
theorem upsert_tags_exact_match (s : Store) (cid : Nat) (ns : List String)
    (n : String) :
    (upsert_tags_and_link s cid ns =
      upsert_tags_and_link s cid
        (ns.filter (fun t => trimIsEmpty t = false))) ∧
    (trimIsEmpty n = false →
      (upsertTagStep cid s n).tags =
        (if s.tags.any (fun t => t.name == n) then s.tags
         else s.tags ++ [{ id := s.next_tag_id, name := n }])) ∧
    (∀ n₁ n₂ : String, trimIsEmpty n₁ = false → trimIsEmpty n₂ = false →
      n₁ ≠ n₂ → (∀ t ∈ s.tags, t.name ≠ n₁ ∧ t.name ≠ n₂) →
      ∃ t₁ t₂, t₁ ∈ (upsert_tags_and_link s cid [n₁, n₂]).tags ∧
        t₂ ∈ (upsert_tags_and_link s cid [n₁, n₂]).tags ∧
        t₁ ≠ t₂ ∧ t₁.name = n₁ ∧ t₂.name = n₂) := by
  refine ⟨?_, ?_, ?_⟩
  · unfold upsert_tags_and_link
    exact upsert_foldl_filter_blank cid ns _
  · intro h
    by_cases h2 : (s.tags.any fun t => t.name == n) = true
    · obtain ⟨t, hf⟩ := find?_isSome_of_any h2
      rw [upsertTagStep_found cid h h2 hf, if_pos h2]
      split <;> rfl
    · replace h2 : (s.tags.any fun t => t.name == n) = false := by
        simpa using h2
      rw [upsertTagStep_new cid h h2,
        if_neg (fun hcc => Bool.false_ne_true (h2 ▸ hcc))]
      split <;> rfl
  · intro n₁ n₂ hb₁ hb₂ hne hfresh
    set s0 : Store :=
      { s with card_tags := s.card_tags.filter (fun l => !(l.1 == cid)) }
      with hs0
    have hany₁ : (s0.tags.any fun t => t.name == n₁) = false := by
      rw [List.any_eq_false]
      intro t ht
      simp [(hfresh t ht).1]
    have hstep₁ := upsertTagStep_new cid hb₁ hany₁
    have htags₁ : (upsertTagStep cid s0 n₁).tags =
        s0.tags ++ [{ id := s0.next_tag_id, name := n₁ }] := by
      rw [hstep₁]
      split <;> rfl
    have hany₂ : ((upsertTagStep cid s0 n₁).tags.any
        fun t => t.name == n₂) = false := by
      rw [htags₁, List.any_eq_false]
      intro t ht
      rcases List.mem_append.mp ht with h | h
      · simp [(hfresh t h).2]
      · have : t = { id := s0.next_tag_id, name := n₁ } := by simpa using h
        rw [this]
        simp [hne]
    have hstep₂ := upsertTagStep_new cid hb₂ hany₂
    have htags₂ : (upsertTagStep cid (upsertTagStep cid s0 n₁) n₂).tags =
        (upsertTagStep cid s0 n₁).tags ++
          [{ id := (upsertTagStep cid s0 n₁).next_tag_id, name := n₂ }] := by
      rw [hstep₂]
      split <;> rfl
    have hfin : (upsert_tags_and_link s cid [n₁, n₂]).tags =
        s0.tags ++ [{ id := s0.next_tag_id, name := n₁ }] ++
          [{ id := (upsertTagStep cid s0 n₁).next_tag_id, name := n₂ }] := by
      unfold upsert_tags_and_link
      rw [List.foldl_cons, List.foldl_cons]
      rw [show ([] : List String).foldl (upsertTagStep cid)
        (upsertTagStep cid (upsertTagStep cid s0 n₁) n₂) =
        upsertTagStep cid (upsertTagStep cid s0 n₁) n₂ from rfl]
      rw [htags₂, htags₁]
    refine ⟨{ id := s0.next_tag_id, name := n₁ },
      { id := (upsertTagStep cid s0 n₁).next_tag_id, name := n₂ }, ?_, ?_,
      ?_, rfl, rfl⟩
    · rw [hfin]
      exact List.mem_append.mpr
        (Or.inl (List.mem_append.mpr (Or.inr (by simp))))
    · rw [hfin]
      exact List.mem_append.mpr (Or.inr (by simp))
    · intro hcontra
      exact hne (by injection hcontra)

/-- Witness for C8: on the sample store, linking tag `"a"` reuses the
existing row, and the pair `"x"`, `"x "` (differing only by a trailing
space) creates two distinct rows. -/
theorem upsert_tags_exact_match_witness :
    (upsert_tags_and_link storeA 1 ["a", " ", "b"] =
      upsert_tags_and_link storeA 1
        (["a", " ", "b"].filter (fun t => trimIsEmpty t = false))) ∧
    ((upsertTagStep 1 storeA "a").tags =
      (if storeA.tags.any (fun t => t.name == "a") then storeA.tags
       else storeA.tags ++ [{ id := storeA.next_tag_id, name := "a" }])) ∧
    (∃ t₁ t₂, t₁ ∈ (upsert_tags_and_link storeA 1 ["x", "x "]).tags ∧
      t₂ ∈ (upsert_tags_and_link storeA 1 ["x", "x "]).tags ∧
      t₁ ≠ t₂ ∧ t₁.name = "x" ∧ t₂.name = "x ") :=
  ⟨(upsert_tags_exact_match storeA 1 ["a", " ", "b"] "a").1,
   (upsert_tags_exact_match storeA 1 [] "a").2.1 (by decide),
   (upsert_tags_exact_match storeA 1 [] "x").2.2 "x" "x " (by decide)
     (by decide) (by decide) (by decide)⟩

end CardVault
